import Mathlib

/-!
Verification of the Sim_CEDIS discrete-time multi-robot warehouse simulator.

The definitions below are a shallow embedding of the Python sources:
  a_estrella.py      (A* grid path planner)
  tabla_reservas.py  (space-time reservation table)
  sim_core.py        (order release, assignment, robot state machine,
                      per-tick propose and resolve loops, metrics)

Python dictionaries are embedded as total functions into Option; Python's
heapq is embedded as a multiset with extract-min under the lexicographic
order on heap entries (heappop always returns a minimal entry, and equal
entries are interchangeable).  The unbounded while-loop of A* is embedded
with an explicit fuel parameter; a fuel bound sufficient for termination
is proved below, so the embedded function agrees with the source on every
input.  Machine integers are embedded as Int / Nat (Python ints are exact).
-/

namespace SimCEDIS

/-- Grid cell, an (x, y) pair of integers. -/
abbrev Celda := Int × Int

/-- The warehouse grid: cell kind values indexed as val y x (row, column).
Values 0 (LIBRE) and 2 (ESTACION) are transitable; out-of-range indices are
never consulted by the embedded code, mirroring the bounds checks that guard
every grid access in the source. -/
structure Grid where
  ancho : Nat
  alto : Nat
  val : Int → Int → Nat

/-- LIBRE cell kind (transitable). -/
def LIBRE : Nat := 0

/-- ESTACION cell kind (transitable). -/
def ESTACION : Nat := 2

/-- Bounds check 0 <= x < ancho and 0 <= y < alto, as in the source. -/
def en_rango (g : Grid) (c : Celda) : Bool :=
  decide (0 ≤ c.1 ∧ c.1 < (g.ancho : Int) ∧ 0 ≤ c.2 ∧ c.2 < (g.alto : Int))

/-- Grid value test grid[y, x] in (LIBRE, ESTACION). -/
def es_transitable (g : Grid) (c : Celda) : Bool :=
  g.val c.2 c.1 == LIBRE || g.val c.2 c.1 == ESTACION

/-- A cell that is both in range and transitable. -/
def celdaValida (g : Grid) (c : Celda) : Bool :=
  en_rango g c && es_transitable g c

/-- The four axis neighbours of a cell, in the fixed source order
(+1,0), (-1,0), (0,+1), (0,-1).  This single list is used both by the
neighbour loop of a_estrella and by celdas_adyacentes of sim_core. -/
def celdas_adyacentes (c : Celda) : List Celda :=
  [(c.1 + 1, c.2), (c.1 - 1, c.2), (c.1, c.2 + 1), (c.1, c.2 - 1)]

/-- Manhattan-distance heuristic of a_estrella.py. -/
def heuristica (meta c : Celda) : Nat :=
  (c.1 - meta.1).natAbs + (c.2 - meta.2).natAbs

/-- Sentinel used by costo_g.get((nx, ny), 10**9) in the source. -/
def GRANDE : Nat := 10 ^ 9

/-- Heap entry (f, g, celda) as pushed by the source. -/
abbrev Entrada := Nat × Nat × Celda

/-- Lexicographic order on heap entries, matching Python tuple comparison
on (f, g, (x, y)). -/
def entradaLe (a b : Entrada) : Prop :=
  a.1 < b.1 ∨ (a.1 = b.1 ∧ (a.2.1 < b.2.1 ∨ (a.2.1 = b.2.1 ∧
    (a.2.2.1 < b.2.2.1 ∨ (a.2.2.1 = b.2.2.1 ∧ a.2.2.2 ≤ b.2.2.2)))))

instance (a b : Entrada) : Decidable (entradaLe a b) := by
  unfold entradaLe; infer_instance

/-- Fold selecting a minimal entry (keeping the earlier one on ties). -/
def minEntrada (x : Entrada) (xs : List Entrada) : Entrada :=
  xs.foldl (fun acc e => if entradaLe acc e then acc else e) x

/-- Extract-min from the open heap: heappop returns a minimal entry under
the lexicographic order and removes one occurrence of it. -/
def popMin (l : List Entrada) : Option (Entrada × List Entrada) :=
  match l with
  | [] => none
  | x :: xs =>
    let m := minEntrada x xs
    some (m, (x :: xs).erase m)

/-- Mutable state of the A* main loop: open heap, parent map vino_de,
cost map costo_g and closed set cerrados. -/
structure EstadoAE where
  abiertos : List Entrada
  vino_de : Celda → Option Celda
  costo_g : Celda → Option Nat
  cerrados : Celda → Bool

/-- costo_g.get(c, 10**9). -/
def getCosto (σ : EstadoAE) (c : Celda) : Nat :=
  (σ.costo_g c).getD GRANDE

/-- Relaxation of one neighbour n of the freshly closed cell actual,
embedding the body of the for dx, dy loop. -/
def relajarUno (g : Grid) (meta actual : Celda) (gA : Nat)
    (σ : EstadoAE) (n : Celda) : EstadoAE :=
  if en_rango g n && es_transitable g n then
    let nuevo_g := gA + 1
    if nuevo_g < getCosto σ n then
      { abiertos := (nuevo_g + heuristica meta n, nuevo_g, n) :: σ.abiertos
        vino_de := fun c => if c = n then some actual else σ.vino_de c
        costo_g := fun c => if c = n then some nuevo_g else σ.costo_g c
        cerrados := σ.cerrados }
    else σ
  else σ

/-- Relaxation of all four neighbours in source order. -/
def relajarVecinos (g : Grid) (meta actual : Celda) (gA : Nat)
    (σ : EstadoAE) : EstadoAE :=
  (celdas_adyacentes actual).foldl (relajarUno g meta actual gA) σ

/-- Path reconstruction: the source builds [meta, p1, ..., inicio] by
following vino_de and then reverses; this recursion produces the reversed
list directly.  The fuel argument exceeds the chain length on every call
site (proved below), so the embedded function agrees with the while loop. -/
def reconstruir : Nat → (Celda → Option Celda) → Celda → List Celda
  | 0, _, c => [c]
  | fuel + 1, vino, c =>
    match vino c with
    | none => [c]
    | some p => reconstruir fuel vino p ++ [c]

/-- One step outcome of the A* loop on fuel exhaustion is the outer none;
some none is the exhausted-heap return and some (some ruta) a found path. -/
def bucleAE (g : Grid) (meta : Celda) :
    Nat → EstadoAE → Option (Option (List Celda))
  | 0, _ => none
  | fuel + 1, σ =>
    match popMin σ.abiertos with
    | none => some none
    | some ((_, gA, actual), abiertos1) =>
      if σ.cerrados actual then
        bucleAE g meta fuel { σ with abiertos := abiertos1 }
      else
        let σ1 : EstadoAE :=
          { σ with abiertos := abiertos1
                   cerrados := fun c => c == actual || σ.cerrados c }
        if actual = meta then
          some (some (reconstruir (gA + 1) σ1.vino_de actual))
        else
          bucleAE g meta fuel (relajarVecinos g meta actual gA σ1)

/-- Fuel amply sufficient for termination of the A* loop (proved below). -/
def combustible (g : Grid) : Nat :=
  2 + 5 * (g.ancho * g.alto)

/-- Initial loop state with the start cell pushed at cost 0. -/
def estadoInicialAE (g : Grid) (inicio meta : Celda) : EstadoAE :=
  { abiertos := [(heuristica meta inicio, 0, inicio)]
    vino_de := fun _ => none
    costo_g := fun c => if c = inicio then some 0 else none
    cerrados := fun _ => false }

/-- The A* planner of a_estrella.py.  Returns a path including inicio and
meta, or none when the goal is unreachable or an endpoint is out of range
or not transitable. -/
def a_estrella (g : Grid) (inicio meta : Celda) : Option (List Celda) :=
  if en_rango g inicio && en_rango g meta
      && es_transitable g inicio && es_transitable g meta then
    (bucleAE g meta (combustible g) (estadoInicialAE g inicio meta)).getD none
  else
    none

/-! Reservation table, tabla_reservas.py. -/

/-- Space-time reservation table: cell reservations (x, y, t) → robot_id and
directed edge reservations (x1, y1, x2, y2, t) → robot_id, both embedded as
total functions into Option (Python dicts). -/
structure TablaReservas where
  reserva_celdas : Int → Int → Nat → Option Nat
  reserva_aristas : Int → Int → Int → Int → Nat → Option Nat

/-- Fresh empty table. -/
def TablaReservas.vacia : TablaReservas :=
  { reserva_celdas := fun _ _ _ => none
    reserva_aristas := fun _ _ _ _ _ => none }

/-- (x, y, tick) not in reserva_celdas. -/
def TablaReservas.celda_libre (t : TablaReservas) (celda : Celda) (tick : Nat) : Bool :=
  (t.reserva_celdas celda.1 celda.2 tick).isNone

/-- reserva_celdas[(x, y, tick)] = robot_id (dictionary overwrite). -/
def TablaReservas.reservar_celda (t : TablaReservas) (rid : Nat) (celda : Celda)
    (tick : Nat) : TablaReservas :=
  { t with reserva_celdas := fun x y k =>
      if x = celda.1 ∧ y = celda.2 ∧ k = tick then some rid
      else t.reserva_celdas x y k }

/-- (x1, y1, x2, y2, tick) not in reserva_aristas. -/
def TablaReservas.arista_libre (t : TablaReservas) (a b : Celda) (tick : Nat) : Bool :=
  (t.reserva_aristas a.1 a.2 b.1 b.2 tick).isNone

/-- reserva_aristas[(x1, y1, x2, y2, tick)] = robot_id. -/
def TablaReservas.reservar_arista (t : TablaReservas) (rid : Nat) (a b : Celda)
    (tick : Nat) : TablaReservas :=
  { t with reserva_aristas := fun x1 y1 x2 y2 k =>
      if x1 = a.1 ∧ y1 = a.2 ∧ x2 = b.1 ∧ y2 = b.2 ∧ k = tick then some rid
      else t.reserva_aristas x1 y1 x2 y2 k }

/-- Movement feasibility: destination cell free at tick_siguiente and the
opposite directed edge (siguiente → actual) free at tick_siguiente. -/
def TablaReservas.puede_moverse (t : TablaReservas) (actual siguiente : Celda)
    (tick_siguiente : Nat) : Bool :=
  t.celda_libre siguiente tick_siguiente
    && t.arista_libre siguiente actual tick_siguiente

/-- Commit of a move: reserve the destination cell and the directed edge
(actual → siguiente) at tick_siguiente. -/
def TablaReservas.confirmar_movimiento (t : TablaReservas) (rid : Nat)
    (actual siguiente : Celda) (tick_siguiente : Nat) : TablaReservas :=
  (t.reservar_celda rid siguiente tick_siguiente).reservar_arista
    rid actual siguiente tick_siguiente

/-- Commit of a wait: reserve the current cell at tick_siguiente. -/
def TablaReservas.confirmar_espera (t : TablaReservas) (rid : Nat)
    (actual : Celda) (tick_siguiente : Nat) : TablaReservas :=
  t.reservar_celda rid actual tick_siguiente

/-! Data model of sim_core.py. -/

/-- Robot state strings of the source. -/
inductive Estado where
  | INACTIVO
  | A_RECOGER
  | A_ESTACION
  | RETORNO
deriving DecidableEq, Repr

/-- Order record (Pedido dataclass). -/
structure Pedido where
  pedido_id : Int
  anaquel_id : Int
  estacion_id : Int
  tick_creacion : Int
  tick_asignacion : Option Nat := none
  tick_completado : Option Nat := none
deriving DecidableEq, Repr

/-- Placeholder order for list indexing; indices used by the simulator are
always in range, so this default is never observed. -/
def pedidoDefault : Pedido :=
  { pedido_id := 0, anaquel_id := 0, estacion_id := 0, tick_creacion := 0 }

/-- Robot record (Robot dataclass). -/
structure Robot where
  robot_id : Nat
  pos : Celda
  estado : Estado := .INACTIVO
  pedido_id : Option Int := none
  anaquel_home : Option Celda := none
  estacion_dock : Option Celda := none
  ruta : List Celda := []
  idx_ruta : Nat := 0
  ticks_espera : Nat := 0
  celdas_movidas : Nat := 0
  ticks_ocupado : Nat := 0
deriving DecidableEq, Repr

/-- Placeholder robot for list indexing; loop indices are always in range. -/
def robotDefault : Robot :=
  { robot_id := 0, pos := (0, 0) }

/-- Pickup target: the first in-range transitable cell adjacent to the shelf,
scanning celdas_adyacentes in source order. -/
def elegir_objetivo_adyacente (g : Grid) (celda_anaquel : Celda) : Option Celda :=
  (celdas_adyacentes celda_anaquel).find? (fun c => en_rango g c && es_transitable g c)

/-- Full simulator state (SimAlmacen).  The station and shelf tables are
embedded as total functions, standing for Python dictionaries whose lookups
always succeed on well-formed inputs. -/
structure SimAlmacen where
  grid : Grid
  estacion_dock : Int → Celda
  anaquel_home : Int → Celda
  pedidos : List Pedido
  seed : Int
  tick : Nat
  tabla_reservas : TablaReservas
  lista_robots : List Robot
  colisiones_vertice : Nat
  intercambios_arista : Nat
  conteo_deadlock : Nat
  eventos_alto : Nat
  pendientes : List Nat
  no_liberados : List Nat

/-- Creation tick of order index i, the sort key of no_liberados. -/
def claveCreacion (pedidos : List Pedido) (i : Nat) : Int :=
  (pedidos.getD i pedidoDefault).tick_creacion

/-- Stable insertion into a list sorted by creation tick: the new index goes
after every index with key ≤ its own, so equal keys keep list order. -/
def insertaPorCreacion (pedidos : List Pedido) (i : Nat) : List Nat → List Nat
  | [] => [i]
  | j :: js =>
    if claveCreacion pedidos j ≤ claveCreacion pedidos i then
      j :: insertaPorCreacion pedidos i js
    else
      i :: j :: js

/-- Stable sort of order indices by creation tick, embedding
sorted(range(len(pedidos)), key=tick_creacion) (Python timsort is stable,
and stable sorts by one key are unique). -/
def ordenaPorCreacion (pedidos : List Pedido) (l : List Nat) : List Nat :=
  l.foldl (fun acc i => insertaPorCreacion pedidos i acc) []

/-- Constructor SimAlmacen.__init__: fails exactly when there are fewer spawn
points than robots; robot i spawns at puntos_spawn[i] and reserves its cell
at tick 0 (in robot order, overwriting on duplicate cells). -/
def mkSim (grid : Grid) (estacion_dock : Int → Celda) (anaquel_home : Int → Celda)
    (robots : Nat) (puntos_spawn : List Celda) (pedidos : List Pedido)
    (seed : Int) : Except String SimAlmacen :=
  if puntos_spawn.length < robots then
    .error ("No hay suficientes puntos de spawn para la cantidad de robots.")
  else
    let lista := (List.range robots).map
      (fun i => { robotDefault with robot_id := i, pos := puntos_spawn.getD i (0, 0) })
    .ok
      { grid := grid
        estacion_dock := estacion_dock
        anaquel_home := anaquel_home
        pedidos := pedidos
        seed := seed
        tick := 0
        tabla_reservas := lista.foldl
          (fun t r => t.confirmar_espera r.robot_id r.pos 0) TablaReservas.vacia
        lista_robots := lista
        colisiones_vertice := 0
        intercambios_arista := 0
        conteo_deadlock := 0
        eventos_alto := 0
        pendientes := []
        no_liberados := ordenaPorCreacion pedidos (List.range pedidos.length) }

/-! Order release and assignment. -/

/-- While loop of _liberar_pedidos: pop the sorted front of no_liberados
while its creation tick is ≤ the current tick, appending to pendientes. -/
def liberarAux (pedidos : List Pedido) (tick : Nat) :
    List Nat → List Nat → List Nat × List Nat
  | pend, [] => (pend, [])
  | pend, i :: resto =>
    if claveCreacion pedidos i ≤ (tick : Int) then
      liberarAux pedidos tick (pend ++ [i]) resto
    else
      (pend, i :: resto)

/-- Release phase _liberar_pedidos. -/
def SimAlmacen.liberar (s : SimAlmacen) : SimAlmacen :=
  let pr := liberarAux s.pedidos s.tick s.pendientes s.no_liberados
  { s with pendientes := pr.1, no_liberados := pr.2 }

/-- Manhattan distance used by the assignment scan. -/
def distManhattan (a b : Celda) : Nat :=
  (a.1 - b.1).natAbs + (a.2 - b.2).natAbs

/-- Candidate scan of _asignar_pedidos: over the first min(50, len) entries
of pendientes, keep the index whose pickup cell minimises the Manhattan
distance to the robot, strict improvement only (first-found wins ties);
orders whose shelf has no valid pickup neighbour are skipped. -/
def pasoElegir (g : Grid) (anaquel_home : Int → Celda) (pedidos : List Pedido)
    (posR : Celda) (acc : Option Nat × Nat) (pi : Nat) : Option Nat × Nat :=
  let p := pedidos.getD pi pedidoDefault
  match elegir_objetivo_adyacente g (anaquel_home p.anaquel_id) with
  | none => acc
  | some pickup =>
    let dist := distManhattan posR pickup
    if dist < acc.2 then (some pi, dist) else acc

/-- The scan fold itself, over the first min(50, len) pending entries with
initial accumulator (None, 10**9). -/
def elegirMejor (g : Grid) (anaquel_home : Int → Celda) (pedidos : List Pedido)
    (posR : Celda) (pendientes : List Nat) : Option Nat :=
  ((pendientes.take (min 50 pendientes.length)).foldl
    (pasoElegir g anaquel_home pedidos posR) ((none : Option Nat), GRANDE)).1

/-- Assignment attempt for the single idle robot at list position i,
embedding one iteration of the for r in inactivos loop: choose the best
candidate, commit the mutations, and revert them all if the pickup neighbour
is missing or the route is unreachable (the failed order index is appended
to pendientes). -/
def asignarRobot (s : SimAlmacen) (i : Nat) : SimAlmacen :=
  let r := s.lista_robots.getD i robotDefault
  match elegirMejor s.grid s.anaquel_home s.pedidos r.pos s.pendientes with
  | none => s
  | some mejor_idx =>
    let p := s.pedidos.getD mejor_idx pedidoDefault
    let pedidosAsignado := s.pedidos.set mejor_idx { p with tick_asignacion := some s.tick }
    let pendientesSin := s.pendientes.erase mejor_idx
    let anaquel := s.anaquel_home p.anaquel_id
    let dock := s.estacion_dock p.estacion_id
    let rAsignado := { r with
      pedido_id := some p.pedido_id
      anaquel_home := some anaquel
      estacion_dock := some dock
      estado := Estado.A_RECOGER }
    let sRevertido : SimAlmacen :=
      { s with
        pedidos := s.pedidos.set mejor_idx { p with tick_asignacion := none }
        pendientes := pendientesSin ++ [mejor_idx]
        lista_robots := s.lista_robots.set i { rAsignado with
          estado := Estado.INACTIVO
          pedido_id := none
          anaquel_home := none
          estacion_dock := none } }
    match elegir_objetivo_adyacente s.grid anaquel with
    | none => sRevertido
    | some pickup =>
      match a_estrella s.grid r.pos pickup with
      | none => sRevertido
      | some ruta =>
        { s with
          pedidos := pedidosAsignado
          pendientes := pendientesSin
          lista_robots := s.lista_robots.set i
            { rAsignado with ruta := ruta, idx_ruta := 0 } }

/-- Loop over the idle robots snapshot, breaking when pendientes is empty. -/
def asignarLoop : SimAlmacen → List Nat → SimAlmacen
  | s, [] => s
  | s, i :: resto =>
    if s.pendientes = [] then s else asignarLoop (asignarRobot s i) resto

/-- Assignment phase _asignar_pedidos. -/
def SimAlmacen.asignar (s : SimAlmacen) : SimAlmacen :=
  let inactivos := (List.range s.lista_robots.length).filter
    (fun i => (s.lista_robots.getD i robotDefault).estado = Estado.INACTIVO)
  if inactivos = [] ∨ s.pendientes = [] then s
  else asignarLoop s inactivos

/-! Robot state machine. -/

/-- _completar_pedido: stamp tick_completado on the first order whose id
matches. -/
def completarAux (tick : Nat) (pid : Int) : List Pedido → List Pedido
  | [] => []
  | p :: ps =>
    if p.pedido_id = pid then { p with tick_completado := some tick } :: ps
    else p :: completarAux tick pid ps

/-- Leg transition _planear_siguiente_tramo_si_llego for the robot at list
position i.  The getD defaults on estacion_dock stand for dictionary fields
that are always set in the states where the branch runs. -/
def SimAlmacen.planear (s : SimAlmacen) (i : Nat) : SimAlmacen :=
  let r := s.lista_robots.getD i robotDefault
  if r.ruta = [] ∨ r.idx_ruta ≠ r.ruta.length - 1 then s
  else
    match r.estado with
    | Estado.INACTIVO => s
    | Estado.A_RECOGER =>
      match a_estrella s.grid r.pos (r.estacion_dock.getD (0, 0)) with
      | none => s
      | some ruta =>
        let r1 := { r with estado := Estado.A_ESTACION, ruta := ruta, idx_ruta := 0 }
        { s with lista_robots := s.lista_robots.set i r1 }
    | Estado.A_ESTACION =>
      match (match r.anaquel_home with
             | none => none
             | some a => elegir_objetivo_adyacente s.grid a) with
      | none => s
      | some pickup =>
        match a_estrella s.grid r.pos pickup with
        | none => s
        | some ruta =>
          let r1 := { r with estado := Estado.RETORNO, ruta := ruta, idx_ruta := 0 }
          { s with lista_robots := s.lista_robots.set i r1 }
    | Estado.RETORNO =>
      let s1 :=
        match r.pedido_id with
        | none => s
        | some pid => { s with pedidos := completarAux s.tick pid s.pedidos }
      let r1 := { r with
        estado := Estado.INACTIVO
        pedido_id := none
        anaquel_home := none
        estacion_dock := none
        ruta := []
        idx_ruta := 0 }
      { s1 with lista_robots := s1.lista_robots.set i r1 }

/-! Per-tick propose and resolve loops. -/

/-- Proposal map update propuestas[robot_id] = celda. -/
def ponPropuesta (props : Nat → Option Celda) (rid : Nat) (c : Celda) :
    Nat → Option Celda :=
  fun k => if k = rid then some c else props k

/-- Body of the propose loop for the robot at position i: busy accounting,
leg transition, then the proposed next cell. -/
def proponerUno (acc : SimAlmacen × (Nat → Option Celda)) (i : Nat) :
    SimAlmacen × (Nat → Option Celda) :=
  let s := acc.1
  let r0 := s.lista_robots.getD i robotDefault
  let rOcupado := { r0 with ticks_ocupado := r0.ticks_ocupado + 1 }
  let s1 :=
    if r0.estado ≠ Estado.INACTIVO then
      { s with lista_robots := s.lista_robots.set i rOcupado }
    else s
  let s2 := s1.planear i
  let r := s2.lista_robots.getD i robotDefault
  let prop : Celda :=
    if r.estado = Estado.INACTIVO ∨ r.ruta = [] then r.pos
    else if r.idx_ruta < r.ruta.length - 1 then r.ruta.getD (r.idx_ruta + 1) (0, 0)
    else r.pos
  (s2, ponPropuesta acc.2 r.robot_id prop)

/-- Propose phase: fold of proponerUno over all robot positions. -/
def SimAlmacen.proponer (s : SimAlmacen) : SimAlmacen × (Nat → Option Celda) :=
  (List.range s.lista_robots.length).foldl proponerUno (s, fun _ => none)

/-- The robot stored at list position i. -/
def robotEn (s : SimAlmacen) (i : Nat) : Robot :=
  s.lista_robots.getD i robotDefault

/-- Position of the robot at list position i. -/
def posEn (s : SimAlmacen) (i : Nat) : Celda :=
  (robotEn s i).pos

/-- Proposal looked up for the robot at list position i.  The lookup always
finds a key (every robot filed a proposal in the propose loop); the getD
default keeps the function total and is never the selected branch in states
produced by proponer. -/
def propuestaDe (props : Nat → Option Celda) (s : SimAlmacen) (i : Nat) : Celda :=
  (props (robotEn s i).robot_id).getD (robotEn s i).pos

/-- Body of the resolve loop for the robot at position i. -/
def resolverUno (props : Nat → Option Celda) (acc : SimAlmacen × Bool) (i : Nat) :
    SimAlmacen × Bool :=
  let s := acc.1
  let r := robotEn s i
  let actual := r.pos
  let siguiente := propuestaDe props s i
  let tsig := s.tick + 1
  if siguiente = actual then
    ({ s with tabla_reservas := s.tabla_reservas.confirmar_espera r.robot_id actual tsig },
      acc.2)
  else if s.tabla_reservas.puede_moverse actual siguiente tsig then
    ({ s with
        tabla_reservas := s.tabla_reservas.confirmar_movimiento r.robot_id actual siguiente tsig
        lista_robots := s.lista_robots.set i
          { r with
            pos := siguiente
            idx_ruta := r.idx_ruta + 1
            celdas_movidas := r.celdas_movidas + 1 } },
      true)
  else
    ({ s with
        tabla_reservas := s.tabla_reservas.confirmar_espera r.robot_id actual tsig
        eventos_alto := s.eventos_alto + 1
        lista_robots := s.lista_robots.set i
          { r with ticks_espera := r.ticks_espera + 1 } },
      acc.2)

/-- Resolve phase: fold of resolverUno in ascending robot order, returning
the updated state and the movio_alguien flag. -/
def SimAlmacen.resolver (s : SimAlmacen) (props : Nat → Option Celda) :
    SimAlmacen × Bool :=
  (List.range s.lista_robots.length).foldl (resolverUno props) (s, false)

/-- One simulation tick (SimAlmacen.step): release, assign, propose,
resolve, deadlock heuristic, tick advance. -/
def SimAlmacen.step (s : SimAlmacen) : SimAlmacen :=
  let s2 := s.liberar.asignar
  let pr := s2.proponer
  let rr := pr.1.resolver pr.2
  let s4 := rr.1
  let s5 :=
    if rr.2 = false ∧ s4.lista_robots.any (fun r => r.estado ≠ Estado.INACTIVO) then
      { s4 with conteo_deadlock := s4.conteo_deadlock + 1 }
    else s4
  { s5 with tick := s5.tick + 1 }

/-- run(ticks): iterate step. -/
def SimAlmacen.runN (s : SimAlmacen) : Nat → SimAlmacen
  | 0 => s
  | n + 1 => (s.runN n).step

/-- Robot position snapshot. -/
def SimAlmacen.obtener_posiciones (s : SimAlmacen) : List Celda :=
  s.lista_robots.map (fun r => r.pos)

/-- Robot state snapshot. -/
def SimAlmacen.obtener_estados (s : SimAlmacen) : List Estado :=
  s.lista_robots.map (fun r => r.estado)

/-- Robot id snapshot. -/
def SimAlmacen.obtener_ids (s : SimAlmacen) : List Nat :=
  s.lista_robots.map (fun r => r.robot_id)

/-! Metrics. -/

/-- Arithmetic mean over rationals (the guarded uses in metricas never hit
the empty case with a different source value: the source guards them). -/
def media (l : List ℚ) : ℚ :=
  if l = [] then 0 else l.sum / l.length

/-- End-of-run metrics record.  Python floats are embedded as exact
rationals; every metrics field is a deterministic function of the state. -/
structure Metricas where
  seed : Int
  tick_final : Nat
  robots : Nat
  pedidos_totales : Nat
  pedidos_completados : Nat
  tiempo_prom_pedido_ticks : Option ℚ
  throughput_pedidos_por_1000_ticks : ℚ
  tiempo_prom_espera_ticks : ℚ
  utilizacion_prom : ℚ
  colisiones_vertice : Nat
  intercambios_arista : Nat
  deadlock : Nat
  eventos_alto : Nat
  distancia_total_celdas : Nat
deriving DecidableEq, Repr

/-- metricas(): aggregation over robots and completed orders. -/
def SimAlmacen.metricas (s : SimAlmacen) : Metricas :=
  let completados := s.pedidos.filter (fun p => p.tick_completado.isSome)
  let n := completados.length
  let esperas := s.lista_robots.map (fun r => (r.ticks_espera : ℚ))
  let utilizacion := s.lista_robots.map
    (fun r => (r.ticks_ocupado : ℚ) / ((max 1 s.tick : Nat) : ℚ))
  { seed := s.seed
    tick_final := s.tick
    robots := s.lista_robots.length
    pedidos_totales := s.pedidos.length
    pedidos_completados := n
    tiempo_prom_pedido_ticks :=
      if 0 < n then
        some (media (completados.map
          (fun p => (((p.tick_completado.getD 0 : Nat) : ℚ) - (p.tick_creacion : ℚ)))))
      else none
    throughput_pedidos_por_1000_ticks :=
      if 0 < s.tick then (n : ℚ) / ((s.tick : ℚ) / 1000) else 0
    tiempo_prom_espera_ticks := media esperas
    utilizacion_prom := media utilizacion
    colisiones_vertice := s.colisiones_vertice
    intercambios_arista := s.intercambios_arista
    deadlock := s.conteo_deadlock
    eventos_alto := s.eventos_alto
    distancia_total_celdas := (s.lista_robots.map (fun r => r.celdas_movidas)).sum }

/-! Generic list helper lemmas used throughout the development. -/

theorem getD_set_self {α : Type} (l : List α) (i : Nat) (v d : α) :
    (l.set i v).getD i d = if i < l.length then v else d := by
  rcases Nat.lt_or_ge i l.length with h | h
  · simp [List.getD_eq_getElem?_getD, List.getElem?_set_self h, h]
  · simp [List.set_eq_of_length_le h, List.getD_eq_getElem?_getD,
      List.getElem?_eq_none h, Nat.not_lt.mpr h]

theorem getD_set_ne {α : Type} (l : List α) {i j : Nat} (hij : i ≠ j) (v d : α) :
    (l.set i v).getD j d = l.getD j d := by
  simp [List.getD_eq_getElem?_getD, List.getElem?_set_ne hij]

theorem getD_map_range {α : Type} (f : Nat → α) {n i : Nat} (h : i < n) (d : α) :
    (((List.range n).map f).getD i d) = f i := by
  simp [List.getD_eq_getElem?_getD, List.getElem?_map, List.getElem?_range h]

/-! Concrete scenario shared by several claims: a 5 × 1 all-free corridor,
one shelf whose pickup cell is (4,0), one station docked at (0,0), two
robots spawned at (0,0) and (2,0), a single order released at tick 0. -/

/-- All-free 5 × 1 corridor grid. -/
def gridCorredor : Grid :=
  { ancho := 5, alto := 1, val := fun _ _ => 0 }

/-- Single order used by the corridor scenario. -/
def pedidoUnico : Pedido :=
  { pedido_id := 0, anaquel_id := 0, estacion_id := 0, tick_creacion := 0 }

/-- Corridor scenario construction (robot 0 at (0,0), robot 1 at (2,0)). -/
def escCorredor : Except String SimAlmacen :=
  mkSim gridCorredor (fun _ => (0, 0)) (fun _ => (4, 1)) 2
    [(0, 0), (2, 0)] [pedidoUnico] 0

/-- Fallback simulator state used to read an Except value that is known to
be ok. -/
def simDefecto : SimAlmacen :=
  { grid := gridCorredor
    estacion_dock := fun _ => (0, 0)
    anaquel_home := fun _ => (0, 0)
    pedidos := []
    seed := 0
    tick := 0
    tabla_reservas := TablaReservas.vacia
    lista_robots := []
    colisiones_vertice := 0
    intercambios_arista := 0
    conteo_deadlock := 0
    eventos_alto := 0
    pendientes := []
    no_liberados := [] }

/-- Payload of a construction result known to be ok. -/
def simDe (e : Except String SimAlmacen) : SimAlmacen :=
  match e with
  | .ok s => s
  | .error _ => simDefecto

/-- C1.  The vertex-collision invariant fails on the code: in the corridor
scenario robot 0 (busy, route through (2,0)) proposes the current cell of
the idle robot 1 while resolving tick 1; robot 1, with the higher id, has
not yet booked its wait at tick 2 when robot 0 queries the table, so the
move is allowed and both robots occupy (2,0) at tick 2. -/
theorem colision_vertice_en_codigo :
    escCorredor.map (fun s => ((s.runN 2).obtener_posiciones, s.obtener_ids))
      = Except.ok ([(2, 0), (2, 0)], [0, 1]) := by
  rfl

/-- C9.  Determinism: two simulators constructed from identical inputs agree
on every robot position, robot state, order timestamp and metrics field at
every tick. -/
theorem determinismo_simulacion (g : Grid) (ed ah : Int → Celda) (robots : Nat)
    (spawn : List Celda) (ped : List Pedido) (seed : Int) (s1 s2 : SimAlmacen)
    (h1 : mkSim g ed ah robots spawn ped seed = .ok s1)
    (h2 : mkSim g ed ah robots spawn ped seed = .ok s2) (t : Nat) :
    (s1.runN t).obtener_posiciones = (s2.runN t).obtener_posiciones
    ∧ (s1.runN t).obtener_estados = (s2.runN t).obtener_estados
    ∧ (s1.runN t).pedidos = (s2.runN t).pedidos
    ∧ (s1.runN t).metricas = (s2.runN t).metricas := by
  rw [h1] at h2
  cases h2
  exact ⟨rfl, rfl, rfl, rfl⟩

/-- Witness for C9 at the concrete corridor scenario. -/
theorem determinismo_simulacion_wit :
    ((simDe escCorredor).runN 2).obtener_posiciones
        = ((simDe escCorredor).runN 2).obtener_posiciones
    ∧ ((simDe escCorredor).runN 2).obtener_estados
        = ((simDe escCorredor).runN 2).obtener_estados
    ∧ ((simDe escCorredor).runN 2).pedidos = ((simDe escCorredor).runN 2).pedidos
    ∧ ((simDe escCorredor).runN 2).metricas = ((simDe escCorredor).runN 2).metricas :=
  determinismo_simulacion gridCorredor (fun _ => (0, 0)) (fun _ => (4, 1)) 2
    [(0, 0), (2, 0)] [pedidoUnico] 0 (simDe escCorredor) (simDe escCorredor)
    rfl rfl 2

/-- Lookup in the tick-0 reservation fold of the constructor: the stored id
is that of the last robot in the list whose spawn cell matches, earlier
reservations being silently overwritten. -/
theorem reserva_inicial_lookup (l : List Robot) (t0 : TablaReservas) (x y : Int) :
    (l.foldl (fun t r => t.confirmar_espera r.robot_id r.pos 0) t0).reserva_celdas x y 0
      = match l.reverse.find? (fun r => r.pos.1 == x && r.pos.2 == y) with
        | some r => some r.robot_id
        | none => t0.reserva_celdas x y 0 := by
  induction l generalizing t0 with
  | nil => simp
  | cons r rest ih =>
    simp only [List.foldl_cons, List.reverse_cons, List.find?_append, ih]
    cases hfind : rest.reverse.find? (fun r => r.pos.1 == x && r.pos.2 == y) with
    | some r2 => simp [Option.or]
    | none =>
      simp only [Option.or, List.find?]
      by_cases hmatch : r.pos.1 = x ∧ r.pos.2 = y
      · simp [TablaReservas.confirmar_espera, TablaReservas.reservar_celda,
          hmatch.1, hmatch.2]
      · have : (r.pos.1 == x && r.pos.2 == y) = false := by
          rcases not_and_or.mp hmatch with h | h <;> simp [h]
        simp only [this]
        simp [TablaReservas.confirmar_espera, TablaReservas.reservar_celda]
        intro h1 h2
        exact absurd ⟨h1.symm, h2.symm⟩ hmatch

/-- find? over a reversed range picks the largest matching index. -/
theorem find_reverse_range {q : Nat → Bool} {j : Nat} (hq : q j = true) :
    ∀ n, j < n → (∀ k, j < k → k < n → q k = false) →
      (List.range n).reverse.find? q = some j := by
  intro n
  induction n with
  | zero => intro h; omega
  | succ m ih =>
    intro hj hlast
    rw [List.range_succ, List.reverse_append, List.reverse_singleton,
      List.singleton_append]
    rcases Nat.lt_or_ge j m with hjm | hjm
    · have hm : q m = false := hlast m hjm (Nat.lt_succ_self m)
      rw [List.find?_cons_of_neg _ (by simp [hm])]
      exact ih hjm (fun k h1 h2 => hlast k h1 (Nat.lt_succ_of_lt h2))
    · have hjeq : j = m := by omega
      subst hjeq
      exact List.find?_cons_of_pos _ hq

/-- C10.  Construction validates only the count of spawn points: it fails
exactly when there are fewer spawn cells than robots; otherwise robot i is
placed at spawn[i] with no transitability or duplication check, duplicated
spawn cells give coinciding initial positions, and the later robot's tick-0
vertex reservation silently overwrites the earlier one. -/
theorem construccion_valida_solo_conteo (g : Grid) (ed ah : Int → Celda)
    (robots : Nat) (spawn : List Celda) (ped : List Pedido) (seed : Int) :
    ((∃ e, mkSim g ed ah robots spawn ped seed = .error e) ↔ spawn.length < robots)
    ∧ (∀ s, mkSim g ed ah robots spawn ped seed = .ok s →
        s.lista_robots.length = robots
        ∧ (∀ i, i < robots →
            (s.lista_robots.getD i robotDefault).robot_id = i
            ∧ (s.lista_robots.getD i robotDefault).pos = spawn.getD i (0, 0))
        ∧ (∀ i j, i < j → j < robots →
            spawn.getD i (0, 0) = spawn.getD j (0, 0) →
            (∀ k, j < k → k < robots → spawn.getD k (0, 0) ≠ spawn.getD j (0, 0)) →
            (s.lista_robots.getD i robotDefault).pos
                = (s.lista_robots.getD j robotDefault).pos
            ∧ s.tabla_reservas.reserva_celdas (spawn.getD j (0, 0)).1
                (spawn.getD j (0, 0)).2 0 = some j)) := by
  constructor
  · unfold mkSim
    by_cases h : spawn.length < robots
    · simp [h]
    · simp [h]
  · intro s hs
    unfold mkSim at hs
    by_cases h : spawn.length < robots
    · simp [h] at hs
    · simp only [h, if_false] at hs
      cases hs
      refine ⟨by simp, ?_, ?_⟩
      · intro i hi
        rw [getD_map_range _ hi]
        exact ⟨rfl, rfl⟩
      · intro i j hij hj hdup hlast
        have hi : i < robots := Nat.lt_trans hij hj
        constructor
        · rw [getD_map_range _ hi, getD_map_range _ hj]
          exact hdup
        · rw [reserva_inicial_lookup]
          have hrev : ((List.range robots).map
              (fun i => { robotDefault with robot_id := i, pos := spawn.getD i (0, 0) })).reverse.find?
                (fun r => r.pos.1 == (spawn.getD j (0, 0)).1 && r.pos.2 == (spawn.getD j (0, 0)).2)
              = some { robotDefault with robot_id := j, pos := spawn.getD j (0, 0) } := by
            rw [← List.map_reverse, List.find?_map]
            rw [find_reverse_range (by simp) robots hj ?hlast]
            · rfl
            case hlast =>
              intro k hk1 hk2
              have hne := hlast k hk1 hk2
              show ((spawn.getD k (0, 0)).1 == (spawn.getD j (0, 0)).1
                  && (spawn.getD k (0, 0)).2 == (spawn.getD j (0, 0)).2) = false
              by_cases h2 : (spawn.getD k (0, 0)).1 = (spawn.getD j (0, 0)).1
              · by_cases h3 : (spawn.getD k (0, 0)).2 = (spawn.getD j (0, 0)).2
                · exact absurd (Prod.ext h2 h3) hne
                · simp only [List.getD_eq_getElem?_getD, Prod.mk_zero_zero] at h3
                  simp [h3]
              · simp only [List.getD_eq_getElem?_getD, Prod.mk_zero_zero] at h2
                simp [h2]
          rw [hrev]

/-- Witness for C10: two robots spawned on the same non-transitable cell
(1,1) of the corridor grid would collide at tick 0 and the table records
robot 1, the later reservation. -/
theorem construccion_valida_solo_conteo_wit :
    (∀ s, mkSim gridCorredor (fun _ => (0, 0)) (fun _ => (0, 0)) 2
        [(1, 1), (1, 1)] [] 0 = .ok s →
      (s.lista_robots.getD 0 robotDefault).pos = (s.lista_robots.getD 1 robotDefault).pos
      ∧ s.tabla_reservas.reserva_celdas 1 1 0 = some 1) := by
  intro s hs
  have h := (construccion_valida_solo_conteo gridCorredor (fun _ => (0, 0))
    (fun _ => (0, 0)) 2 [(1, 1), (1, 1)] [] 0).2 s hs
  have hc := h.2.2 0 1 (by decide) (by decide) (by decide) (by intro k h1 h2; omega)
  exact hc

/-! Claims C5 and C6: behaviour of a failed assignment attempt. -/

/-- Each scan step either keeps the accumulator choice or selects the
scanned index. -/
theorem pasoElegir_fst (g : Grid) (ah : Int → Celda) (ped : List Pedido)
    (pos : Celda) (acc : Option Nat × Nat) (x : Nat) :
    (pasoElegir g ah ped pos acc x).1 = acc.1
    ∨ (pasoElegir g ah ped pos acc x).1 = some x := by
  cases h : elegir_objetivo_adyacente g (ah (ped.getD x pedidoDefault).anaquel_id) with
  | none =>
    left
    simp only [pasoElegir, h]
  | some pk =>
    simp only [pasoElegir, h]
    split
    · exact Or.inr rfl
    · exact Or.inl rfl

/-- A choice produced by the scan fold is either the initial accumulator or
one of the scanned entries. -/
theorem foldl_elegir_mem (g : Grid) (ah : Int → Celda) (ped : List Pedido)
    (pos : Celda) (m : Nat) :
    ∀ (l : List Nat) (acc : Option Nat × Nat),
      (l.foldl (pasoElegir g ah ped pos) acc).1 = some m →
      acc.1 = some m ∨ m ∈ l := by
  intro l
  induction l with
  | nil => exact fun acc h => Or.inl h
  | cons x xs ih =>
    intro acc h
    rcases ih (pasoElegir g ah ped pos acc x) h with h1 | h1
    · rcases pasoElegir_fst g ah ped pos acc x with h2 | h2
      · exact Or.inl (h2 ▸ h1)
      · rw [h2] at h1
        cases h1
        exact Or.inr (List.mem_cons_self _ _)
    · exact Or.inr (List.mem_cons_of_mem x h1)

/-- The selected order index is a member of the pending queue. -/
theorem elegirMejor_mem {g : Grid} {ah : Int → Celda} {ped : List Pedido}
    {pos : Celda} {pend : List Nat} {m : Nat}
    (h : elegirMejor g ah ped pos pend = some m) : m ∈ pend := by
  unfold elegirMejor at h
  rcases foldl_elegir_mem g ah ped pos m _ _ h with h1 | h1
  · cases h1
  · exact List.take_subset _ _ h1

/-- Membership in erase-then-append equals membership in the original. -/
theorem mem_erase_append_self {l : List Nat} {m : Nat} (hm : m ∈ l) (x : Nat) :
    x ∈ l.erase m ++ [m] ↔ x ∈ l := by
  by_cases hx : x = m
  · subst hx
    simp [hm]
  · simp only [List.mem_append, List.mem_singleton]
    rw [List.mem_erase_of_ne hx]
    constructor
    · rintro (h | h)
      · exact h
      · exact absurd h hx
    · exact Or.inl

/-- C5 counterexample scenario: a 4 × 3 grid whose column x = 1 is a solid
wall; the lone robot at (0,0) cannot reach the right half. -/
def gridMuro : Grid :=
  { ancho := 4, alto := 3, val := fun _ x => if x = 1 then 3 else 0 }

/-- Shelf table of the wall scenario: shelf 0 at (3,0) with unreachable
pickup cell (2,0); shelf 1 at (-1,2) with reachable pickup cell (0,2). -/
def anaquelesMuro : Int → Celda :=
  fun a => if a = 0 then (3, 0) else (-1, 2)

/-- The two orders of the wall scenario, both released at tick 0. -/
def pedidosMuro : List Pedido :=
  [{ pedido_id := 0, anaquel_id := 0, estacion_id := 0, tick_creacion := 0 },
   { pedido_id := 1, anaquel_id := 1, estacion_id := 0, tick_creacion := 0 }]

/-- Wall scenario construction: one robot at (0,0). -/
def escMuro : Except String SimAlmacen :=
  mkSim gridMuro (fun _ => (0, 0)) anaquelesMuro 1 [(0, 0)] pedidosMuro 0

/-- C5 counterexample.  In the wall scenario the released queue is [0, 1]
and the scan selects order 0 (its unreachable pickup is nearer), whose
route fails; the code then appends the failed order at the back, leaving
[1, 0] instead of restoring its original front position [0, 1], so the
relative order of the pending queue is disturbed. -/
theorem pendiente_reencolado_al_final :
    escMuro.map (fun s =>
      (s.liberar.pendientes,
       elegirMejor s.grid s.anaquel_home s.pedidos (0, 0) s.liberar.pendientes,
       (s.runN 1).pendientes,
       (s.runN 1).obtener_estados))
    = Except.ok ([0, 1], some 0, [1, 0], [Estado.INACTIVO]) := by
  rfl

/-- C5 amended.  When the order selected for a robot cannot be assigned
(the attempt leaves the robot IDLE), the order is removed from its original
position and appended at the back of the pending queue; the other pending
orders keep their relative order. -/
theorem orden_fallido_se_reencola_al_final (s : SimAlmacen) (i m : Nat)
    (hi : i < s.lista_robots.length)
    (hsel : elegirMejor s.grid s.anaquel_home s.pedidos
        (s.lista_robots.getD i robotDefault).pos s.pendientes = some m)
    (hfail : ((asignarRobot s i).lista_robots.getD i robotDefault).estado
        = Estado.INACTIVO) :
    (asignarRobot s i).pendientes = s.pendientes.erase m ++ [m] := by
  cases hpk : elegir_objetivo_adyacente s.grid
      (s.anaquel_home (s.pedidos.getD m pedidoDefault).anaquel_id) with
  | none =>
    simp only [asignarRobot, hsel, hpk]
  | some pickup =>
    cases hru : a_estrella s.grid (s.lista_robots.getD i robotDefault).pos pickup with
    | none =>
      simp only [asignarRobot, hsel, hpk, hru]
    | some ruta =>
      exfalso
      simp only [asignarRobot, hsel, hpk, hru] at hfail
      rw [getD_set_self, if_pos hi] at hfail
      simp at hfail

/-- Witness for C5 amended, instantiated at the wall scenario after release. -/
theorem orden_fallido_se_reencola_al_final_wit :
    (asignarRobot (simDe escMuro).liberar 0).pendientes
      = ((simDe escMuro).liberar.pendientes.erase 0) ++ [0] :=
  orden_fallido_se_reencola_al_final (simDe escMuro).liberar 0 0
    (by decide) (by decide) (by decide)

/-- C6.  Assignment is atomic on failure: if the robot at position i was
clean IDLE, every pending order still carries no assignment tick, and the
attempt leaves it IDLE, then afterwards the robot has no order id, shelf
home, dock or route, the pending queue has the same members, and every
pending order still has no assignment tick. -/
theorem asignacion_atomica_en_fallo (s : SimAlmacen) (i : Nat)
    (hi : i < s.lista_robots.length)
    (hPed : (s.lista_robots.getD i robotDefault).pedido_id = none)
    (hAn : (s.lista_robots.getD i robotDefault).anaquel_home = none)
    (hDk : (s.lista_robots.getD i robotDefault).estacion_dock = none)
    (hRt : (s.lista_robots.getD i robotDefault).ruta = [])
    (hTk : ∀ m ∈ s.pendientes, (s.pedidos.getD m pedidoDefault).tick_asignacion = none)
    (hfail : ((asignarRobot s i).lista_robots.getD i robotDefault).estado
        = Estado.INACTIVO) :
    ((asignarRobot s i).lista_robots.getD i robotDefault).estado = Estado.INACTIVO
    ∧ ((asignarRobot s i).lista_robots.getD i robotDefault).pedido_id = none
    ∧ ((asignarRobot s i).lista_robots.getD i robotDefault).anaquel_home = none
    ∧ ((asignarRobot s i).lista_robots.getD i robotDefault).estacion_dock = none
    ∧ ((asignarRobot s i).lista_robots.getD i robotDefault).ruta = []
    ∧ (∀ m, m ∈ (asignarRobot s i).pendientes ↔ m ∈ s.pendientes)
    ∧ (∀ m ∈ (asignarRobot s i).pendientes,
        ((asignarRobot s i).pedidos.getD m pedidoDefault).tick_asignacion = none) := by
  cases hsel : elegirMejor s.grid s.anaquel_home s.pedidos
      (s.lista_robots.getD i robotDefault).pos s.pendientes with
  | none =>
    have hs : asignarRobot s i = s := by
      simp only [asignarRobot, hsel]
    rw [hs] at hfail ⊢
    exact ⟨hfail, hPed, hAn, hDk, hRt, fun m => Iff.rfl, hTk⟩
  | some m =>
    have hmem : m ∈ s.pendientes := elegirMejor_mem hsel
    have hpend : (asignarRobot s i).pendientes = s.pendientes.erase m ++ [m] :=
      orden_fallido_se_reencola_al_final s i m hi hsel hfail
    cases hpk : elegir_objetivo_adyacente s.grid
        (s.anaquel_home (s.pedidos.getD m pedidoDefault).anaquel_id) with
    | none =>
      have hs : asignarRobot s i =
          { s with
            pedidos := s.pedidos.set m
              { s.pedidos.getD m pedidoDefault with tick_asignacion := none }
            pendientes := s.pendientes.erase m ++ [m]
            lista_robots := s.lista_robots.set i
              { s.lista_robots.getD i robotDefault with
                estado := Estado.INACTIVO
                pedido_id := none
                anaquel_home := none
                estacion_dock := none } } := by
        simp only [asignarRobot, hsel, hpk]
      rw [hs]
      dsimp only
      rw [getD_set_self, if_pos hi]
      refine ⟨rfl, rfl, rfl, rfl, hRt, ?_, ?_⟩
      · exact mem_erase_append_self hmem
      · intro m2 hm2
        rw [mem_erase_append_self hmem] at hm2
        by_cases hmm : m2 = m
        · subst hmm
          rw [getD_set_self]
          split
          · rfl
          · rfl
        · rw [getD_set_ne _ (fun he => hmm he.symm)]
          exact hTk m2 hm2
    | some pickup =>
      cases hru : a_estrella s.grid (s.lista_robots.getD i robotDefault).pos pickup with
      | none =>
        have hs : asignarRobot s i =
            { s with
              pedidos := s.pedidos.set m
                { s.pedidos.getD m pedidoDefault with tick_asignacion := none }
              pendientes := s.pendientes.erase m ++ [m]
              lista_robots := s.lista_robots.set i
                { s.lista_robots.getD i robotDefault with
                  estado := Estado.INACTIVO
                  pedido_id := none
                  anaquel_home := none
                  estacion_dock := none } } := by
          simp only [asignarRobot, hsel, hpk, hru]
        rw [hs]
        dsimp only
        rw [getD_set_self, if_pos hi]
        refine ⟨rfl, rfl, rfl, rfl, hRt, ?_, ?_⟩
        · exact mem_erase_append_self hmem
        · intro m2 hm2
          rw [mem_erase_append_self hmem] at hm2
          by_cases hmm : m2 = m
          · subst hmm
            rw [getD_set_self]
            split
            · rfl
            · rfl
          · rw [getD_set_ne _ (fun he => hmm he.symm)]
            exact hTk m2 hm2
      | some ruta =>
        exfalso
        simp only [asignarRobot, hsel, hpk, hru] at hfail
        rw [getD_set_self, if_pos hi] at hfail
        simp at hfail

/-- Witness for C6 at the wall scenario after release. -/
theorem asignacion_atomica_en_fallo_wit :
    ((asignarRobot (simDe escMuro).liberar 0).lista_robots.getD 0 robotDefault).estado
        = Estado.INACTIVO
    ∧ ((asignarRobot (simDe escMuro).liberar 0).lista_robots.getD 0 robotDefault).pedido_id
        = none
    ∧ ((asignarRobot (simDe escMuro).liberar 0).lista_robots.getD 0 robotDefault).anaquel_home
        = none
    ∧ ((asignarRobot (simDe escMuro).liberar 0).lista_robots.getD 0 robotDefault).estacion_dock
        = none
    ∧ ((asignarRobot (simDe escMuro).liberar 0).lista_robots.getD 0 robotDefault).ruta = []
    ∧ (∀ m, m ∈ (asignarRobot (simDe escMuro).liberar 0).pendientes
        ↔ m ∈ (simDe escMuro).liberar.pendientes)
    ∧ (∀ m ∈ (asignarRobot (simDe escMuro).liberar 0).pendientes,
        ((asignarRobot (simDe escMuro).liberar 0).pedidos.getD m pedidoDefault).tick_asignacion
          = none) :=
  asignacion_atomica_en_fallo (simDe escMuro).liberar 0
    (by decide) (by decide) (by decide) (by decide) (by decide)
    (by decide) (by decide)

/-! Claim C7: characterisation of the assignment scan policy. -/

/-- Pickup cell examined by the scan for the order at index pi. -/
def pickupDe (g : Grid) (ah : Int → Celda) (ped : List Pedido) (pi : Nat) : Option Celda :=
  elegir_objetivo_adyacente g (ah (ped.getD pi pedidoDefault).anaquel_id)

/-- Invariant of the scan fold: either nothing valid has been seen and the
accumulator is untouched, or the accumulator holds the earliest index among
the seen entries attaining the minimum pickup distance. -/
def InvScan (g : Grid) (ah : Int → Celda) (ped : List Pedido) (pos : Celda)
    (vistos : List Nat) (acc : Option Nat × Nat) : Prop :=
  (acc = ((none : Option Nat), GRANDE) ∧ ∀ j ∈ vistos, pickupDe g ah ped j = none)
  ∨ (∃ m l1 l2 pkm, acc.1 = some m ∧ vistos = l1 ++ m :: l2
      ∧ pickupDe g ah ped m = some pkm
      ∧ acc.2 = distManhattan pos pkm
      ∧ distManhattan pos pkm < GRANDE
      ∧ (∀ j ∈ l1, ∀ pk, pickupDe g ah ped j = some pk →
          distManhattan pos pkm < distManhattan pos pk)
      ∧ (∀ j ∈ l2, ∀ pk, pickupDe g ah ped j = some pk →
          distManhattan pos pkm ≤ distManhattan pos pk))

/-- One scan step rewritten through pickupDe. -/
theorem pasoElegir_eq (g : Grid) (ah : Int → Celda) (ped : List Pedido)
    (pos : Celda) (acc : Option Nat × Nat) (e : Nat) :
    pasoElegir g ah ped pos acc e =
      match pickupDe g ah ped e with
      | none => acc
      | some pk =>
        if distManhattan pos pk < acc.2 then (some e, distManhattan pos pk) else acc :=
  rfl

/-- The scan fold preserves InvScan over any suffix whose valid candidates
have distance below the 10**9 sentinel. -/
theorem elegirFold_inv (g : Grid) (ah : Int → Celda) (ped : List Pedido) (pos : Celda) :
    ∀ (l vistos : List Nat) (acc : Option Nat × Nat),
      InvScan g ah ped pos vistos acc →
      (∀ pi ∈ l, ∀ pk, pickupDe g ah ped pi = some pk → distManhattan pos pk < GRANDE) →
      InvScan g ah ped pos (vistos ++ l) (l.foldl (pasoElegir g ah ped pos) acc) := by
  intro l
  induction l with
  | nil => intro vistos acc hinv _; simpa using hinv
  | cons e rest ih =>
    intro vistos acc hinv hsmall
    have hstep : InvScan g ah ped pos (vistos ++ [e]) (pasoElegir g ah ped pos acc e) := by
      rw [pasoElegir_eq]
      cases hpk : pickupDe g ah ped e with
      | none =>
        rcases hinv with ⟨hacc, hnone⟩ | ⟨m, l1, l2, pkm, h1, h2, h3, h4, h5, h6, h7⟩
        · refine Or.inl ⟨hacc, ?_⟩
          intro j hj
          rcases List.mem_append.mp hj with hj | hj
          · exact hnone j hj
          · rw [List.mem_singleton.mp hj]
            exact hpk
        · refine Or.inr ⟨m, l1, l2 ++ [e], pkm, h1, by rw [h2]; simp, h3, h4, h5, h6, ?_⟩
          intro j hj pk hpkj
          rcases List.mem_append.mp hj with hj | hj
          · exact h7 j hj pk hpkj
          · rw [List.mem_singleton.mp hj] at hpkj
            rw [hpk] at hpkj
            cases hpkj
      | some pk =>
        have hdist : distManhattan pos pk < GRANDE :=
          hsmall e (List.mem_cons_self _ _) pk hpk
        rcases hinv with ⟨hacc, hnone⟩ | ⟨m, l1, l2, pkm, h1, h2, h3, h4, h5, h6, h7⟩
        · rw [hacc]
          dsimp only
          rw [if_pos hdist]
          refine Or.inr ⟨e, vistos, [], pk, rfl, by simp, hpk, rfl, hdist, ?_, by simp⟩
          intro j hj pk2 hpkj
          rw [hnone j hj] at hpkj
          cases hpkj
        · rw [h4]
          dsimp only
          by_cases hlt : distManhattan pos pk < distManhattan pos pkm
          · rw [if_pos hlt]
            refine Or.inr ⟨e, vistos, [], pk, rfl, by simp, hpk, rfl, hdist, ?_, by simp⟩
            intro j hj pk2 hpkj
            rw [h2] at hj
            rcases List.mem_append.mp hj with hj | hj
            · exact Nat.lt_trans hlt (h6 j hj pk2 hpkj)
            · rcases List.mem_cons.mp hj with hj | hj
              · subst hj
                rw [h3] at hpkj
                cases hpkj
                exact hlt
              · exact Nat.lt_of_lt_of_le hlt (h7 j hj pk2 hpkj)
          · rw [if_neg hlt]
            refine Or.inr ⟨m, l1, l2 ++ [e], pkm, h1, by rw [h2]; simp, h3, h4, h5, h6, ?_⟩
            intro j hj pk2 hpkj
            rcases List.mem_append.mp hj with hj | hj
            · exact h7 j hj pk2 hpkj
            · rw [List.mem_singleton.mp hj] at hpkj
              rw [hpk] at hpkj
              cases hpkj
              exact Nat.le_of_not_lt hlt
    have hsmall2 : ∀ pi ∈ rest, ∀ pk, pickupDe g ah ped pi = some pk →
        distManhattan pos pk < GRANDE :=
      fun pi hpi => hsmall pi (List.mem_cons_of_mem _ hpi)
    have := ih (vistos ++ [e]) (pasoElegir g ah ped pos acc e) hstep hsmall2
    simpa [List.append_assoc] using this

/-- C7.  The assignment scan examines only the first min(50, len) pending
entries; the pickup of an order is the first in-range transitable neighbour
of its shelf in the order (+1,0), (-1,0), (0,+1), (0,-1); no order is
chosen exactly when no scanned order has a pickup; and a chosen order is a
scanned order with a pickup whose distance is strictly below every earlier
valid candidate's and at most every later one's. -/
theorem politica_de_asignacion (g : Grid) (ah : Int → Celda) (ped : List Pedido)
    (pos : Celda) (pend : List Nat)
    (hsmall : ∀ pi ∈ pend.take (min 50 pend.length), ∀ pk,
      pickupDe g ah ped pi = some pk → distManhattan pos pk < GRANDE) :
    (elegirMejor g ah ped pos pend = elegirMejor g ah ped pos (pend.take 50))
    ∧ (∀ a : Celda, elegir_objetivo_adyacente g a =
        ([(a.1 + 1, a.2), (a.1 - 1, a.2), (a.1, a.2 + 1), (a.1, a.2 - 1)].find?
          (fun c => en_rango g c && es_transitable g c)))
    ∧ (elegirMejor g ah ped pos pend = none ↔
        ∀ pi ∈ pend.take (min 50 pend.length), pickupDe g ah ped pi = none)
    ∧ (∀ m, elegirMejor g ah ped pos pend = some m →
        ∃ l1 l2 pkm, pend.take (min 50 pend.length) = l1 ++ m :: l2
          ∧ pickupDe g ah ped m = some pkm
          ∧ (∀ j ∈ l1, ∀ pk, pickupDe g ah ped j = some pk →
              distManhattan pos pkm < distManhattan pos pk)
          ∧ (∀ j ∈ l2, ∀ pk, pickupDe g ah ped j = some pk →
              distManhattan pos pkm ≤ distManhattan pos pk)) := by
  have hfinal : InvScan g ah ped pos ([] ++ pend.take (min 50 pend.length))
      ((pend.take (min 50 pend.length)).foldl (pasoElegir g ah ped pos)
        ((none : Option Nat), GRANDE)) :=
    elegirFold_inv g ah ped pos (pend.take (min 50 pend.length)) [] _
      (Or.inl ⟨rfl, by simp⟩) hsmall
  rw [List.nil_append] at hfinal
  refine ⟨?_, fun a => rfl, ?_, ?_⟩
  · unfold elegirMejor
    have hlen : min 50 (pend.take 50).length = min 50 pend.length := by
      rw [List.length_take]
      omega
    rw [hlen, List.take_take]
    have : min (min 50 pend.length) 50 = min 50 pend.length := by omega
    rw [this]
  · constructor
    · intro hnone
      rcases hfinal with ⟨_, h⟩ | ⟨m, l1, l2, pkm, h1, _, _, _, _, _, _⟩
      · exact h
      · unfold elegirMejor at hnone
        rw [h1] at hnone
        cases hnone
    · intro hall
      rcases hfinal with ⟨hacc, _⟩ | ⟨m, l1, l2, pkm, h1, h2, h3, _, _, _, _⟩
      · unfold elegirMejor
        rw [hacc]
      · have hm : m ∈ pend.take (min 50 pend.length) := by
          rw [h2]; simp
        rw [hall m hm] at h3
        cases h3
  · intro m hm
    rcases hfinal with ⟨hacc, _⟩ | ⟨m2, l1, l2, pkm, h1, h2, h3, _, _, h6, h7⟩
    · unfold elegirMejor at hm
      rw [hacc] at hm
      cases hm
    · unfold elegirMejor at hm
      rw [h1] at hm
      cases hm
      exact ⟨l1, l2, pkm, h2, h3, h6, h7⟩

/-- Witness for C7 at the wall scenario: the selected order is 0, the first
of the two scanned candidates at equal distance 2 (earliest wins the tie). -/
theorem politica_de_asignacion_wit :
    (elegirMejor gridMuro anaquelesMuro pedidosMuro (0, 0) [0, 1]
        = elegirMejor gridMuro anaquelesMuro pedidosMuro (0, 0) ([0, 1].take 50))
    ∧ (elegirMejor gridMuro anaquelesMuro pedidosMuro (0, 0) [0, 1] = none ↔
        ∀ pi ∈ [0, 1].take (min 50 ([0, 1] : List Nat).length),
          pickupDe gridMuro anaquelesMuro pedidosMuro pi = none) := by
  have h := politica_de_asignacion gridMuro anaquelesMuro pedidosMuro (0, 0) [0, 1]
    (by decide)
  exact ⟨h.1, h.2.2.1⟩

/-! Claims C2 and C8: the resolve loop. -/

/-- Waiting commits touch no edge reservation. -/
theorem espera_aristas (t : TablaReservas) (rid : Nat) (c : Celda) (k : Nat) :
    (t.confirmar_espera rid c k).reserva_aristas = t.reserva_aristas := rfl

/-- Edge lookup after a move commit. -/
theorem movimiento_aristas (t : TablaReservas) (rid : Nat) (a b : Celda) (k : Nat)
    (x1 y1 x2 y2 : Int) (t2 : Nat) :
    (t.confirmar_movimiento rid a b k).reserva_aristas x1 y1 x2 y2 t2
      = if x1 = a.1 ∧ y1 = a.2 ∧ x2 = b.1 ∧ y2 = b.2 ∧ t2 = k then some rid
        else t.reserva_aristas x1 y1 x2 y2 t2 := rfl

/-- Feasibility unfolded to the two underlying lookups. -/
theorem puede_moverse_iff (t : TablaReservas) (a b : Celda) (k : Nat) :
    t.puede_moverse a b k = true
      ↔ t.reserva_celdas b.1 b.2 k = none ∧ t.reserva_aristas b.1 b.2 a.1 a.2 k = none := by
  simp [TablaReservas.puede_moverse, TablaReservas.celda_libre,
    TablaReservas.arista_libre, Option.isNone_iff_eq_none]

/-- Case description of one resolve iteration: a robot either books a wait
(proposal equals position), commits a granted move, or is blocked and books
a wait. -/
theorem resolverUno_desc (props : Nat → Option Celda) (s : SimAlmacen) (mv : Bool)
    (k : Nat) :
    (propuestaDe props s k = (robotEn s k).pos
      ∧ resolverUno props (s, mv) k
        = ({ s with tabla_reservas := s.tabla_reservas.confirmar_espera (robotEn s k).robot_id (robotEn s k).pos (s.tick + 1) }, mv))
    ∨ (propuestaDe props s k ≠ (robotEn s k).pos
      ∧ s.tabla_reservas.puede_moverse (robotEn s k).pos (propuestaDe props s k)
          (s.tick + 1) = true
      ∧ resolverUno props (s, mv) k
        = ({ s with
            tabla_reservas := s.tabla_reservas.confirmar_movimiento (robotEn s k).robot_id (robotEn s k).pos (propuestaDe props s k) (s.tick + 1)
            lista_robots := s.lista_robots.set k { robotEn s k with pos := propuestaDe props s k, idx_ruta := (robotEn s k).idx_ruta + 1, celdas_movidas := (robotEn s k).celdas_movidas + 1 } }, true))
    ∨ (propuestaDe props s k ≠ (robotEn s k).pos
      ∧ s.tabla_reservas.puede_moverse (robotEn s k).pos (propuestaDe props s k)
          (s.tick + 1) ≠ true
      ∧ resolverUno props (s, mv) k
        = ({ s with
            tabla_reservas := s.tabla_reservas.confirmar_espera (robotEn s k).robot_id (robotEn s k).pos (s.tick + 1)
            eventos_alto := s.eventos_alto + 1
            lista_robots := s.lista_robots.set k { robotEn s k with ticks_espera := (robotEn s k).ticks_espera + 1 } },
          mv)) := by
  by_cases h1 : propuestaDe props s k = (robotEn s k).pos
  · refine Or.inl ⟨h1, ?_⟩
    simp only [resolverUno, h1, if_pos]
  · by_cases h2 : s.tabla_reservas.puede_moverse (robotEn s k).pos
        (propuestaDe props s k) (s.tick + 1) = true
    · refine Or.inr (Or.inl ⟨h1, h2, ?_⟩)
      simp only [resolverUno, if_neg h1, if_pos h2]
    · refine Or.inr (Or.inr ⟨h1, h2, ?_⟩)
      simp only [resolverUno, if_neg h1, if_neg h2]

/-- Full specification of the resolve fold over a duplicate-free list of
in-range robot positions: preserved sizes and counters, untouched robots,
preserved per-robot fields, isSome-monotonicity of edge reservations, the
footprint of every moved robot (its opposite edge was free at the start of
the pass, its own directed edge is booked at the end, and it moved onto its
looked-up proposal), the absence of position swaps, and the movement flag. -/
theorem resolverFold_spec (props : Nat → Option Celda) :
    ∀ (l : List Nat) (s : SimAlmacen) (mv : Bool) (res : SimAlmacen × Bool),
      res = l.foldl (resolverUno props) (s, mv) →
      l.Nodup → (∀ k ∈ l, k < s.lista_robots.length) →
      res.1.lista_robots.length = s.lista_robots.length
      ∧ res.1.tick = s.tick
      ∧ res.1.conteo_deadlock = s.conteo_deadlock
      ∧ (∀ j, j ∉ l → robotEn res.1 j = robotEn s j)
      ∧ (∀ j, (robotEn res.1 j).estado = (robotEn s j).estado
          ∧ (robotEn res.1 j).ruta = (robotEn s j).ruta
          ∧ (robotEn res.1 j).robot_id = (robotEn s j).robot_id)
      ∧ (∀ x1 y1 x2 y2 t2, s.tabla_reservas.reserva_aristas x1 y1 x2 y2 t2 ≠ none →
          res.1.tabla_reservas.reserva_aristas x1 y1 x2 y2 t2 ≠ none)
      ∧ (∀ k ∈ l, posEn res.1 k ≠ posEn s k →
          s.tabla_reservas.reserva_aristas (posEn res.1 k).1 (posEn res.1 k).2
            (posEn s k).1 (posEn s k).2 (s.tick + 1) = none
          ∧ res.1.tabla_reservas.reserva_aristas (posEn s k).1 (posEn s k).2
            (posEn res.1 k).1 (posEn res.1 k).2 (s.tick + 1) ≠ none
          ∧ (∃ c, props ((robotEn s k).robot_id) = some c ∧ posEn res.1 k = c))
      ∧ (∀ a ∈ l, ∀ b ∈ l, a ≠ b →
          ¬(posEn s a ≠ posEn s b ∧ posEn res.1 a = posEn s b ∧ posEn res.1 b = posEn s a))
      ∧ (res.2 = true ↔ mv = true ∨ ∃ k ∈ l, posEn res.1 k ≠ posEn s k) := by
  intro l
  induction l with
  | nil =>
    intro s mv res hres _ _
    subst hres
    refine ⟨rfl, rfl, rfl, fun j _ => rfl, fun j => ⟨rfl, rfl, rfl⟩,
      fun _ _ _ _ _ h => h, fun k hk => absurd hk (List.not_mem_nil k),
      fun a ha => absurd ha (List.not_mem_nil a), by simp⟩
  | cons k rest ih =>
    intro s mv res hres hnd hb
    have hknd : k ∉ rest := (List.nodup_cons.mp hnd).1
    have hrnd : rest.Nodup := (List.nodup_cons.mp hnd).2
    have hk : k < s.lista_robots.length := hb k (List.mem_cons_self _ _)
    rw [List.foldl_cons] at hres
    rcases resolverUno_desc props s mv k with ⟨h1, hbody⟩ | ⟨h1, h2, hbody⟩ | ⟨h1, h2, hbody⟩
    all_goals rw [hbody] at hres
    -- CASE 1: proposal equals position, wait committed, robots untouched.
    · set s1 : SimAlmacen :=
        { s with tabla_reservas := s.tabla_reservas.confirmar_espera (robotEn s k).robot_id (robotEn s k).pos (s.tick + 1) } with hs1
      have hrob : ∀ j, robotEn s1 j = robotEn s j := fun j => rfl
      have hari : s1.tabla_reservas.reserva_aristas = s.tabla_reservas.reserva_aristas := rfl
      have hb1 : ∀ k2 ∈ rest, k2 < s1.lista_robots.length :=
        fun k2 hk2 => hb k2 (List.mem_cons_of_mem _ hk2)
      obtain ⟨iL, iT, iC, iUn, iFld, iMono, iMov, iSwap, iFlag⟩ :=
        ih s1 mv res hres hrnd hb1
      have hposr : ∀ j, posEn s1 j = posEn s j := fun j => rfl
      have hreskj : robotEn res.1 k = robotEn s k := (iUn k hknd).trans (hrob k)
      refine ⟨iL, iT, iC, ?_, ?_, ?_, ?_, ?_, ?_⟩
      · intro j hj
        have hj1 : j ∉ rest := fun h => hj (List.mem_cons_of_mem _ h)
        exact (iUn j hj1).trans (hrob j)
      · intro j
        obtain ⟨e1, e2, e3⟩ := iFld j
        rw [hrob j] at e1 e2 e3
        exact ⟨e1, e2, e3⟩
      · intro x1 y1 x2 y2 t2 hsome
        exact iMono x1 y1 x2 y2 t2 (by rw [hari]; exact hsome)
      · intro k2 hk2 hmov
        rcases List.mem_cons.mp hk2 with hkk | hkk
        · rw [hkk] at hmov
          exact absurd (congrArg Robot.pos hreskj) hmov
        · exact iMov k2 hkk hmov
      · intro a ha b hbm hab hswap
        obtain ⟨w1, w2, w3⟩ := hswap
        have hposkk : posEn res.1 k = posEn s k := congrArg Robot.pos hreskj
        rcases List.mem_cons.mp ha with haa | haa
        · rw [haa] at w1 w2
          rw [hposkk] at w2
          exact w1 w2
        · rcases List.mem_cons.mp hbm with hbb | hbb
          · rw [hbb] at w1 w3
            rw [hposkk] at w3
            exact w1 w3.symm
          · exact iSwap a haa b hbb hab ⟨w1, w2, w3⟩
      · rw [iFlag]
        have hposkk : posEn res.1 k = posEn s k := congrArg Robot.pos hreskj
        constructor
        · rintro (h | ⟨k2, hk2, h⟩)
          · exact Or.inl h
          · exact Or.inr ⟨k2, List.mem_cons_of_mem _ hk2, h⟩
        · rintro (h | ⟨k2, hk2, h⟩)
          · exact Or.inl h
          · rcases List.mem_cons.mp hk2 with hkk | hkk
            · rw [hkk] at h
              exact absurd hposkk h
            · exact Or.inr ⟨k2, hkk, h⟩
    -- CASE 2: granted move.
    · set rM : Robot := { robotEn s k with pos := propuestaDe props s k, idx_ruta := (robotEn s k).idx_ruta + 1, celdas_movidas := (robotEn s k).celdas_movidas + 1 } with hrM
      set s1 : SimAlmacen :=
        { s with
          tabla_reservas := s.tabla_reservas.confirmar_movimiento (robotEn s k).robot_id (robotEn s k).pos (propuestaDe props s k) (s.tick + 1)
          lista_robots := s.lista_robots.set k rM } with hs1
      have hL1 : s1.lista_robots.length = s.lista_robots.length := List.length_set _ _ _
      have hrobne : ∀ j, j ≠ k → robotEn s1 j = robotEn s j := by
        intro j hj
        show (s.lista_robots.set k rM).getD j robotDefault = _
        exact getD_set_ne _ (fun he => hj he.symm) _ _
      have hrobk : robotEn s1 k = rM := by
        show (s.lista_robots.set k rM).getD k robotDefault = rM
        rw [getD_set_self, if_pos hk]
      have hfree : s.tabla_reservas.reserva_aristas (propuestaDe props s k).1
          (propuestaDe props s k).2 (posEn s k).1 (posEn s k).2
          (s.tick + 1) = none := ((puede_moverse_iff _ _ _ _).mp h2).2
      have hbook : s1.tabla_reservas.reserva_aristas (posEn s k).1
          (posEn s k).2 (propuestaDe props s k).1 (propuestaDe props s k).2
          (s.tick + 1) = some (robotEn s k).robot_id := by
        show (s.tabla_reservas.confirmar_movimiento _ _ _ _).reserva_aristas _ _ _ _ _ = _
        rw [movimiento_aristas, if_pos ⟨rfl, rfl, rfl, rfl, rfl⟩]
      have hmono1 : ∀ x1 y1 x2 y2 t2,
          s.tabla_reservas.reserva_aristas x1 y1 x2 y2 t2 ≠ none →
          s1.tabla_reservas.reserva_aristas x1 y1 x2 y2 t2 ≠ none := by
        intro x1 y1 x2 y2 t2 hsome
        show (s.tabla_reservas.confirmar_movimiento _ _ _ _).reserva_aristas _ _ _ _ _ ≠ none
        rw [movimiento_aristas]
        split
        · exact Option.some_ne_none _
        · exact hsome
      have hb1 : ∀ k2 ∈ rest, k2 < s1.lista_robots.length := by
        intro k2 hk2
        rw [hL1]
        exact hb k2 (List.mem_cons_of_mem _ hk2)
      obtain ⟨iL, iT, iC, iUn, iFld, iMono, iMov, iSwap, iFlag⟩ :=
        ih s1 true res hres hrnd hb1
      have hposr : ∀ j, j ≠ k → posEn s1 j = posEn s j :=
        fun j hj => congrArg Robot.pos (hrobne j hj)
      have hreskj : robotEn res.1 k = rM := (iUn k hknd).trans hrobk
      have hposk : posEn res.1 k = propuestaDe props s k := congrArg Robot.pos hreskj
      have hkmoved : posEn res.1 k ≠ posEn s k := by
        rw [hposk]
        exact h1
      have ht1 : s1.tick = s.tick := rfl
      refine ⟨iL.trans hL1, iT, iC, ?_, ?_, ?_, ?_, ?_, ?_⟩
      · intro j hj
        have hj1 : j ∉ rest := fun h => hj (List.mem_cons_of_mem _ h)
        have hjk : j ≠ k := fun h => hj (h ▸ List.mem_cons_self _ _)
        exact (iUn j hj1).trans (hrobne j hjk)
      · intro j
        obtain ⟨e1, e2, e3⟩ := iFld j
        by_cases hjk : j = k
        · subst hjk
          rw [hrobk] at e1 e2 e3
          exact ⟨e1, e2, e3⟩
        · rw [hrobne j hjk] at e1 e2 e3
          exact ⟨e1, e2, e3⟩
      · intro x1 y1 x2 y2 t2 hsome
        exact iMono x1 y1 x2 y2 t2 (hmono1 x1 y1 x2 y2 t2 hsome)
      · intro k2 hk2 hmov
        rcases List.mem_cons.mp hk2 with hkk | hkk
        · rw [hkk] at hmov ⊢
          refine ⟨by rw [hposk]; exact hfree, ?_, ?_⟩
          · rw [hposk]
            exact iMono _ _ _ _ _ (by rw [hbook]; exact Option.some_ne_none _)
          · cases hp : props ((robotEn s k).robot_id) with
            | none =>
              exfalso
              apply h1
              show (props (robotEn s k).robot_id).getD (robotEn s k).pos = _
              rw [hp]
              rfl
            | some c =>
              refine ⟨c, rfl, ?_⟩
              rw [hposk]
              show (props (robotEn s k).robot_id).getD (robotEn s k).pos = c
              rw [hp]
              rfl
        · have hk2k : k2 ≠ k := fun h => hknd (h ▸ hkk)
          have hthis := iMov k2 hkk (by rw [hposr k2 hk2k]; exact hmov)
          rw [hposr k2 hk2k, ht1] at hthis
          obtain ⟨a1, a2, a3⟩ := hthis
          refine ⟨?_, a2, ?_⟩
          · by_contra hcontra
            exact (hmono1 _ _ _ _ _ hcontra) a1
          · rw [hrobne k2 hk2k] at a3
            exact a3
      · intro a ha b hbm hab hswap
        obtain ⟨w1, w2, w3⟩ := hswap
        rcases List.mem_cons.mp ha with haa | haa
        · -- a is the freshly moved robot k; b would have to move onto the
          -- opposite edge, which k has just booked.
          rcases List.mem_cons.mp hbm with hbb | hbb
          · exact hab (haa.trans hbb.symm)
          · have hbk : b ≠ k := fun h => hknd (h ▸ hbb)
            rw [haa] at w1 w2 w3
            have hbmove : posEn res.1 b ≠ posEn s1 b := by
              rw [hposr b hbk, w3]
              exact w1
            have hthis := (iMov b hbb hbmove).1
            rw [w3, hposr b hbk, ← w2, hposk, ht1] at hthis
            rw [hbook] at hthis
            cases hthis
        · rcases List.mem_cons.mp hbm with hbb | hbb
          · have hak : a ≠ k := fun h => hknd (h ▸ haa)
            rw [hbb] at w1 w2 w3
            have hamove : posEn res.1 a ≠ posEn s1 a := by
              rw [hposr a hak, w2]
              exact fun h => w1 h.symm
            have hthis := (iMov a haa hamove).1
            rw [w2, hposr a hak, ← w3, hposk, ht1] at hthis
            rw [hbook] at hthis
            cases hthis
          · have hak : a ≠ k := fun h => hknd (h ▸ haa)
            have hbk : b ≠ k := fun h => hknd (h ▸ hbb)
            refine iSwap a haa b hbb hab ?_
            rw [hposr a hak, hposr b hbk]
            exact ⟨w1, w2, w3⟩
      · constructor
        · intro _
          exact Or.inr ⟨k, List.mem_cons_self _ _, hkmoved⟩
        · intro _
          rw [iFlag]
          exact Or.inl rfl
    -- CASE 3: blocked move, wait committed.
    · set rE : Robot := { robotEn s k with ticks_espera := (robotEn s k).ticks_espera + 1 } with hrE
      set s1 : SimAlmacen :=
        { s with
          tabla_reservas := s.tabla_reservas.confirmar_espera (robotEn s k).robot_id (robotEn s k).pos (s.tick + 1)
          eventos_alto := s.eventos_alto + 1
          lista_robots := s.lista_robots.set k rE } with hs1
      have hL1 : s1.lista_robots.length = s.lista_robots.length := List.length_set _ _ _
      have hrobne : ∀ j, j ≠ k → robotEn s1 j = robotEn s j := by
        intro j hj
        show (s.lista_robots.set k rE).getD j robotDefault = _
        exact getD_set_ne _ (fun he => hj he.symm) _ _
      have hrobk : robotEn s1 k = rE := by
        show (s.lista_robots.set k rE).getD k robotDefault = rE
        rw [getD_set_self, if_pos hk]
      have hari : s1.tabla_reservas.reserva_aristas = s.tabla_reservas.reserva_aristas := rfl
      have hb1 : ∀ k2 ∈ rest, k2 < s1.lista_robots.length := by
        intro k2 hk2
        rw [hL1]
        exact hb k2 (List.mem_cons_of_mem _ hk2)
      obtain ⟨iL, iT, iC, iUn, iFld, iMono, iMov, iSwap, iFlag⟩ :=
        ih s1 mv res hres hrnd hb1
      have hposr : ∀ j, posEn s1 j = posEn s j := by
        intro j
        by_cases hjk : j = k
        · subst hjk
          show (robotEn s1 j).pos = (robotEn s j).pos
          rw [hrobk]
        · exact congrArg Robot.pos (hrobne j hjk)
      have hreskj : robotEn res.1 k = rE := (iUn k hknd).trans hrobk
      have hposk : posEn res.1 k = posEn s k := by
        show (robotEn res.1 k).pos = _
        rw [hreskj]
        rfl
      have ht1 : s1.tick = s.tick := rfl
      refine ⟨iL.trans hL1, iT, iC, ?_, ?_, ?_, ?_, ?_, ?_⟩
      · intro j hj
        have hj1 : j ∉ rest := fun h => hj (List.mem_cons_of_mem _ h)
        have hjk : j ≠ k := fun h => hj (h ▸ List.mem_cons_self _ _)
        exact (iUn j hj1).trans (hrobne j hjk)
      · intro j
        obtain ⟨e1, e2, e3⟩ := iFld j
        by_cases hjk : j = k
        · subst hjk
          rw [hrobk] at e1 e2 e3
          exact ⟨e1, e2, e3⟩
        · rw [hrobne j hjk] at e1 e2 e3
          exact ⟨e1, e2, e3⟩
      · intro x1 y1 x2 y2 t2 hsome
        exact iMono x1 y1 x2 y2 t2 (by rw [hari]; exact hsome)
      · intro k2 hk2 hmov
        rcases List.mem_cons.mp hk2 with hkk | hkk
        · rw [hkk] at hmov
          exact absurd hposk hmov
        · have hk2k : k2 ≠ k := fun h => hknd (h ▸ hkk)
          have hthis := iMov k2 hkk (by rw [hposr k2]; exact hmov)
          rw [hposr k2, hari, ht1] at hthis
          obtain ⟨a1, a2, a3⟩ := hthis
          rw [hrobne k2 hk2k] at a3
          exact ⟨a1, a2, a3⟩
      · intro a ha b hbm hab hswap
        obtain ⟨w1, w2, w3⟩ := hswap
        rcases List.mem_cons.mp ha with haa | haa
        · rw [haa] at w1 w2
          rw [hposk] at w2
          exact w1 w2
        · rcases List.mem_cons.mp hbm with hbb | hbb
          · rw [hbb] at w1 w3
            rw [hposk] at w3
            exact w1 w3.symm
          · refine iSwap a haa b hbb hab ?_
            rw [hposr a, hposr b]
            exact ⟨w1, w2, w3⟩
      · rw [iFlag]
        constructor
        · rintro (h | ⟨k2, hk2, h⟩)
          · exact Or.inl h
          · exact Or.inr ⟨k2, List.mem_cons_of_mem _ hk2, by rw [hposr k2] at h; exact h⟩
        · rintro (h | ⟨k2, hk2, h⟩)
          · exact Or.inl h
          · rcases List.mem_cons.mp hk2 with hkk | hkk
            · rw [hkk] at h
              exact absurd hposk h
            · exact Or.inr ⟨k2, hkk, by rw [hposr k2]; exact h⟩

/-- Core state preserved by the release, assignment and propose phases:
robot count, every robot position, tick, reservation table and deadlock
counter are untouched before the resolve loop runs. -/
def MismoNucleo (s s2 : SimAlmacen) : Prop :=
  s2.lista_robots.length = s.lista_robots.length
  ∧ (∀ j, posEn s2 j = posEn s j)
  ∧ s2.tick = s.tick
  ∧ s2.tabla_reservas = s.tabla_reservas
  ∧ s2.conteo_deadlock = s.conteo_deadlock

theorem mismoNucleo_refl (s : SimAlmacen) : MismoNucleo s s :=
  ⟨rfl, fun _ => rfl, rfl, rfl, rfl⟩

theorem mismoNucleo_trans {s1 s2 s3 : SimAlmacen}
    (h1 : MismoNucleo s1 s2) (h2 : MismoNucleo s2 s3) : MismoNucleo s1 s3 :=
  ⟨h2.1.trans h1.1, fun j => (h2.2.1 j).trans (h1.2.1 j),
   h2.2.2.1.trans h1.2.2.1, h2.2.2.2.1.trans h1.2.2.2.1,
   h2.2.2.2.2.trans h1.2.2.2.2⟩

/-- A state which only replaces orders, the pending queue and one robot by a
robot at the same position preserves the core. -/
theorem mismoNucleo_set (s : SimAlmacen) (i : Nat) (r2 : Robot)
    (ped2 : List Pedido) (pend2 : List Nat)
    (hpos : r2.pos = (robotEn s i).pos) :
    MismoNucleo s { s with pedidos := ped2, pendientes := pend2, lista_robots := s.lista_robots.set i r2 } := by
  refine ⟨List.length_set _ _ _, ?_, rfl, rfl, rfl⟩
  intro j
  by_cases hj : j = i
  · subst hj
    show ((s.lista_robots.set j r2).getD j robotDefault).pos = _
    rw [getD_set_self]
    rcases Nat.lt_or_ge j s.lista_robots.length with hlt | hge
    · rw [if_pos hlt]
      exact hpos
    · rw [if_neg (Nat.not_lt.mpr hge)]
      show robotDefault.pos = (s.lista_robots.getD j robotDefault).pos
      rw [List.getD_eq_getElem?_getD, List.getElem?_eq_none hge]
      rfl
  · show ((s.lista_robots.set i r2).getD j robotDefault).pos = _
    rw [getD_set_ne _ (fun he => hj he.symm)]
    rfl

/-- The assignment attempt either leaves the state alone or replaces orders,
queue and the attempted robot, keeping its position. -/
theorem asignarRobot_nucleo (s : SimAlmacen) (i : Nat) :
    MismoNucleo s (asignarRobot s i) := by
  cases hsel : elegirMejor s.grid s.anaquel_home s.pedidos
      (s.lista_robots.getD i robotDefault).pos s.pendientes with
  | none =>
    have h : asignarRobot s i = s := by simp only [asignarRobot, hsel]
    rw [h]
    exact mismoNucleo_refl s
  | some m =>
    cases hpk : elegir_objetivo_adyacente s.grid
        (s.anaquel_home (s.pedidos.getD m pedidoDefault).anaquel_id) with
    | none =>
      have he : asignarRobot s i = { s with
          pedidos := s.pedidos.set m { s.pedidos.getD m pedidoDefault with tick_asignacion := none }
          pendientes := s.pendientes.erase m ++ [m]
          lista_robots := s.lista_robots.set i { s.lista_robots.getD i robotDefault with pedido_id := none, anaquel_home := none, estacion_dock := none, estado := Estado.INACTIVO } } := by
        simp only [asignarRobot, hsel, hpk]
      rw [he]
      refine mismoNucleo_set s i _ _ _ ?_
      rfl
    | some pickup =>
      cases hru : a_estrella s.grid (s.lista_robots.getD i robotDefault).pos pickup with
      | none =>
        have he : asignarRobot s i = { s with
            pedidos := s.pedidos.set m { s.pedidos.getD m pedidoDefault with tick_asignacion := none }
            pendientes := s.pendientes.erase m ++ [m]
            lista_robots := s.lista_robots.set i { s.lista_robots.getD i robotDefault with pedido_id := none, anaquel_home := none, estacion_dock := none, estado := Estado.INACTIVO } } := by
          simp only [asignarRobot, hsel, hpk, hru]
        rw [he]
        refine mismoNucleo_set s i _ _ _ ?_
        rfl
      | some ruta =>
        have he : asignarRobot s i = { s with
            pedidos := s.pedidos.set m { s.pedidos.getD m pedidoDefault with tick_asignacion := some s.tick }
            pendientes := s.pendientes.erase m
            lista_robots := s.lista_robots.set i { s.lista_robots.getD i robotDefault with pedido_id := some (s.pedidos.getD m pedidoDefault).pedido_id, anaquel_home := some (s.anaquel_home (s.pedidos.getD m pedidoDefault).anaquel_id), estacion_dock := some (s.estacion_dock (s.pedidos.getD m pedidoDefault).estacion_id), estado := Estado.A_RECOGER, ruta := ruta, idx_ruta := 0 } } := by
          simp only [asignarRobot, hsel, hpk, hru]
        rw [he]
        refine mismoNucleo_set s i _ _ _ ?_
        rfl

theorem asignarLoop_nucleo : ∀ (l : List Nat) (s : SimAlmacen),
    MismoNucleo s (asignarLoop s l) := by
  intro l
  induction l with
  | nil => exact fun s => mismoNucleo_refl s
  | cons i resto ih =>
    intro s
    show MismoNucleo s (if s.pendientes = [] then s else asignarLoop (asignarRobot s i) resto)
    split
    · exact mismoNucleo_refl s
    · exact mismoNucleo_trans (asignarRobot_nucleo s i) (ih (asignarRobot s i))

theorem asignar_nucleo (s : SimAlmacen) : MismoNucleo s s.asignar := by
  show MismoNucleo s (if _ then s else _)
  split
  · exact mismoNucleo_refl s
  · exact asignarLoop_nucleo _ s

theorem liberar_nucleo (s : SimAlmacen) : MismoNucleo s s.liberar :=
  ⟨rfl, fun _ => rfl, rfl, rfl, rfl⟩

/-- Leg transitions keep the core: every branch keeps the robot position. -/
theorem planear_nucleo (s : SimAlmacen) (i : Nat) : MismoNucleo s (s.planear i) := by
  by_cases hg : (s.lista_robots.getD i robotDefault).ruta = []
      ∨ (s.lista_robots.getD i robotDefault).idx_ruta
          ≠ (s.lista_robots.getD i robotDefault).ruta.length - 1
  · have he : s.planear i = s := by
      simp only [SimAlmacen.planear, if_pos hg]
    rw [he]
    exact mismoNucleo_refl s
  · cases hst : (s.lista_robots.getD i robotDefault).estado with
    | INACTIVO =>
      have he : s.planear i = s := by
        simp only [SimAlmacen.planear, if_neg hg, hst]
      rw [he]
      exact mismoNucleo_refl s
    | A_RECOGER =>
      cases hru : a_estrella s.grid (s.lista_robots.getD i robotDefault).pos
          ((s.lista_robots.getD i robotDefault).estacion_dock.getD (0, 0)) with
      | none =>
        have he : s.planear i = s := by
          simp only [SimAlmacen.planear, if_neg hg, hst, hru]
        rw [he]
        exact mismoNucleo_refl s
      | some ruta =>
        have he : s.planear i = { s with lista_robots := s.lista_robots.set i { s.lista_robots.getD i robotDefault with estado := Estado.A_ESTACION, ruta := ruta, idx_ruta := 0 } } := by
          simp only [SimAlmacen.planear, if_neg hg, hst, hru]
        rw [he]
        refine mismoNucleo_set s i _ s.pedidos s.pendientes ?_
        rfl
    | A_ESTACION =>
      cases hah : (s.lista_robots.getD i robotDefault).anaquel_home with
      | none =>
        have he : s.planear i = s := by
          simp only [SimAlmacen.planear, if_neg hg, hst, hah]
        rw [he]
        exact mismoNucleo_refl s
      | some anq =>
        cases hpk : elegir_objetivo_adyacente s.grid anq with
        | none =>
          have he : s.planear i = s := by
            simp only [SimAlmacen.planear, if_neg hg, hst, hah, hpk]
          rw [he]
          exact mismoNucleo_refl s
        | some pickup =>
          cases hru : a_estrella s.grid (s.lista_robots.getD i robotDefault).pos pickup with
          | none =>
            have he : s.planear i = s := by
              simp only [SimAlmacen.planear, if_neg hg, hst, hah, hpk, hru]
            rw [he]
            exact mismoNucleo_refl s
          | some ruta =>
            have he : s.planear i = { s with lista_robots := s.lista_robots.set i { s.lista_robots.getD i robotDefault with estado := Estado.RETORNO, ruta := ruta, idx_ruta := 0 } } := by
              simp only [SimAlmacen.planear, if_neg hg, hst, hah, hpk, hru]
            rw [he]
            refine mismoNucleo_set s i _ s.pedidos s.pendientes ?_
            rfl
    | RETORNO =>
      cases hpid : (s.lista_robots.getD i robotDefault).pedido_id with
      | none =>
        have he : s.planear i = { s with lista_robots := s.lista_robots.set i { s.lista_robots.getD i robotDefault with estado := Estado.INACTIVO, pedido_id := none, anaquel_home := none, estacion_dock := none, ruta := [], idx_ruta := 0 } } := by
          simp only [SimAlmacen.planear, if_neg hg, hst, hpid]
        rw [he]
        refine mismoNucleo_set s i _ s.pedidos s.pendientes ?_
        rfl
      | some pid =>
        have he : s.planear i = { s with pedidos := completarAux s.tick pid s.pedidos, lista_robots := s.lista_robots.set i { s.lista_robots.getD i robotDefault with estado := Estado.INACTIVO, pedido_id := none, anaquel_home := none, estacion_dock := none, ruta := [], idx_ruta := 0 } } := by
          simp only [SimAlmacen.planear, if_neg hg, hst, hpid]
        rw [he]
        refine mismoNucleo_set s i _ _ s.pendientes ?_
        rfl

theorem proponerUno_nucleo (acc : SimAlmacen × (Nat → Option Celda)) (i : Nat) :
    MismoNucleo acc.1 (proponerUno acc i).1 := by
  have h1 : (proponerUno acc i).1
      = SimAlmacen.planear (if (acc.1.lista_robots.getD i robotDefault).estado ≠ Estado.INACTIVO then { acc.1 with lista_robots := acc.1.lista_robots.set i { acc.1.lista_robots.getD i robotDefault with ticks_ocupado := (acc.1.lista_robots.getD i robotDefault).ticks_ocupado + 1 } } else acc.1) i := rfl
  rw [h1]
  by_cases h : (acc.1.lista_robots.getD i robotDefault).estado ≠ Estado.INACTIVO
  · rw [if_pos h]
    refine mismoNucleo_trans
      (mismoNucleo_set acc.1 i { acc.1.lista_robots.getD i robotDefault with ticks_ocupado := (acc.1.lista_robots.getD i robotDefault).ticks_ocupado + 1 } acc.1.pedidos acc.1.pendientes rfl)
      (planear_nucleo _ i)
  · rw [if_neg h]
    exact planear_nucleo acc.1 i

theorem proponerFold_nucleo : ∀ (l : List Nat) (acc : SimAlmacen × (Nat → Option Celda)),
    MismoNucleo acc.1 (l.foldl proponerUno acc).1 := by
  intro l
  induction l with
  | nil => exact fun acc => mismoNucleo_refl acc.1
  | cons i resto ih =>
    intro acc
    exact mismoNucleo_trans (proponerUno_nucleo acc i) (ih (proponerUno acc i))

theorem proponer_nucleo (s : SimAlmacen) : MismoNucleo s s.proponer.1 :=
  proponerFold_nucleo _ (s, fun _ => none)

/-- The pre-resolve state of a tick keeps the core of the incoming state. -/
theorem preResolve_nucleo (s : SimAlmacen) :
    MismoNucleo s (s.liberar.asignar.proponer).1 :=
  mismoNucleo_trans (liberar_nucleo s)
    (mismoNucleo_trans (asignar_nucleo s.liberar) (proponer_nucleo s.liberar.asignar))

/-- The robot list of a finished step is the robot list produced by the
resolve fold. -/
theorem step_lista (s : SimAlmacen) :
    (s.step).lista_robots
      = ((s.liberar.asignar.proponer).1.resolver (s.liberar.asignar.proponer).2).1.lista_robots := by
  simp only [SimAlmacen.step]
  split
  · rfl
  · rfl

/-- The deadlock counter of a finished step. -/
theorem step_conteo (s : SimAlmacen) :
    (s.step).conteo_deadlock
      = (if ((s.liberar.asignar.proponer).1.resolver (s.liberar.asignar.proponer).2).2 = false
            ∧ ((s.liberar.asignar.proponer).1.resolver (s.liberar.asignar.proponer).2).1.lista_robots.any (fun r => r.estado ≠ Estado.INACTIVO)
          then ((s.liberar.asignar.proponer).1.resolver (s.liberar.asignar.proponer).2).1.conteo_deadlock + 1
          else ((s.liberar.asignar.proponer).1.resolver (s.liberar.asignar.proponer).2).1.conteo_deadlock) := by
  simp only [SimAlmacen.step]
  split
  · rfl
  · rfl

theorem posEn_eq_getD (s : SimAlmacen) (k : Nat) :
    posEn s k = s.obtener_posiciones.getD k (0, 0) :=
  (List.getD_map s.lista_robots robotDefault (fun r => r.pos)).symm

/-- Equality of position snapshots is pointwise equality of positions. -/
theorem posiciones_eq_iff (s1 s2 : SimAlmacen)
    (hlen : s1.lista_robots.length = s2.lista_robots.length) :
    s1.obtener_posiciones = s2.obtener_posiciones ↔ ∀ k, posEn s1 k = posEn s2 k := by
  constructor
  · intro h k
    rw [posEn_eq_getD, posEn_eq_getD, h]
  · intro h
    apply List.ext_getElem?
    intro n
    have hL1 : s1.obtener_posiciones.length = s1.lista_robots.length :=
      List.length_map _ _
    have hL2 : s2.obtener_posiciones.length = s2.lista_robots.length :=
      List.length_map _ _
    rcases Nat.lt_or_ge n s1.lista_robots.length with hn | hn
    · have l1 : n < s1.obtener_posiciones.length := by rw [hL1]; exact hn
      have l2 : n < s2.obtener_posiciones.length := by rw [hL2, ← hlen]; exact hn
      have hk := h n
      rw [posEn_eq_getD, posEn_eq_getD, List.getD_eq_getElem?_getD,
        List.getD_eq_getElem?_getD, List.getElem?_eq_getElem l1,
        List.getElem?_eq_getElem l2] at hk
      rw [List.getElem?_eq_getElem l1, List.getElem?_eq_getElem l2]
      simpa using hk
    · rw [List.getElem?_eq_none (by rw [hL1]; exact hn),
        List.getElem?_eq_none (by rw [hL2, ← hlen]; exact hn)]

/-- C8.  The deadlock counter increments by exactly one when no robot
changed position during the tick and some robot is busy at the end of the
resolve phase, and is unchanged otherwise; the step function is total, so
the simulation always continues. -/
theorem contador_deadlock_paso (s : SimAlmacen) :
    (s.step).conteo_deadlock = s.conteo_deadlock +
      (if (s.step).obtener_posiciones = s.obtener_posiciones
          ∧ (s.step).lista_robots.any (fun r => r.estado ≠ Estado.INACTIVO) = true
        then 1 else 0) := by
  have hnuc := preResolve_nucleo s
  obtain ⟨iL, iT, iC, iUn, iFld, iMono, iMov, iSwap, iFlag⟩ :=
    resolverFold_spec (s.liberar.asignar.proponer).2
      (List.range (s.liberar.asignar.proponer).1.lista_robots.length)
      (s.liberar.asignar.proponer).1 false
      ((s.liberar.asignar.proponer).1.resolver (s.liberar.asignar.proponer).2) rfl
      (List.nodup_range _) (fun k hk => List.mem_range.mp hk)
  have hlista := step_lista s
  have hlenr : ((s.liberar.asignar.proponer).1.resolver (s.liberar.asignar.proponer).2).1.lista_robots.length = s.lista_robots.length :=
    iL.trans hnuc.1
  have hlenstep : (s.step).lista_robots.length = s.lista_robots.length := by
    rw [hlista]
    exact hlenr
  have hposstep : ∀ k, posEn (s.step) k
      = posEn ((s.liberar.asignar.proponer).1.resolver (s.liberar.asignar.proponer).2).1 k :=
    fun k => congrArg (fun l => (l.getD k robotDefault).pos) hlista
  have hposiff : ((s.step).obtener_posiciones = s.obtener_posiciones)
      ↔ ((s.liberar.asignar.proponer).1.resolver (s.liberar.asignar.proponer).2).2 = false := by
    rw [posiciones_eq_iff _ _ hlenstep]
    constructor
    · intro h
      cases hmv : ((s.liberar.asignar.proponer).1.resolver (s.liberar.asignar.proponer).2).2 with
      | false => rfl
      | true =>
        exfalso
        rcases iFlag.mp hmv with hcontra | ⟨k, _, hk⟩
        · cases hcontra
        · apply hk
          rw [← hposstep k, h k, ← hnuc.2.1 k]
    · intro hmv k
      by_cases hk : k < (s.liberar.asignar.proponer).1.lista_robots.length
      · by_contra hne
        have : ((s.liberar.asignar.proponer).1.resolver (s.liberar.asignar.proponer).2).2 = true := by
          rw [iFlag]
          refine Or.inr ⟨k, List.mem_range.mpr hk, ?_⟩
          rw [← hposstep k]
          intro he
          exact hne (he.trans (hnuc.2.1 k))
        rw [hmv] at this
        cases this
      · have := iUn k (fun hm => hk (List.mem_range.mp hm))
        rw [hposstep k]
        exact (congrArg Robot.pos this).trans (hnuc.2.1 k)
  have hany : (s.step).lista_robots.any (fun r => r.estado ≠ Estado.INACTIVO)
      = ((s.liberar.asignar.proponer).1.resolver (s.liberar.asignar.proponer).2).1.lista_robots.any (fun r => r.estado ≠ Estado.INACTIVO) :=
    congrArg (fun l : List Robot => l.any (fun r => r.estado ≠ Estado.INACTIVO)) hlista
  rw [step_conteo s]
  have hcont : ((s.liberar.asignar.proponer).1.resolver (s.liberar.asignar.proponer).2).1.conteo_deadlock = s.conteo_deadlock :=
    iC.trans hnuc.2.2.2.2
  by_cases hmv : ((s.liberar.asignar.proponer).1.resolver (s.liberar.asignar.proponer).2).2 = false
  · by_cases ha : ((s.liberar.asignar.proponer).1.resolver (s.liberar.asignar.proponer).2).1.lista_robots.any (fun r => r.estado ≠ Estado.INACTIVO) = true
    · rw [if_pos ⟨hmv, ha⟩, if_pos ⟨hposiff.mpr hmv, by rw [hany]; exact ha⟩, hcont]
    · have hcneg : ¬((s.step).obtener_posiciones = s.obtener_posiciones
          ∧ (s.step).lista_robots.any (fun r => r.estado ≠ Estado.INACTIVO) = true) := by
        intro hc
        apply ha
        rw [← hany]
        exact hc.2
      rw [if_neg (fun hc => ha hc.2), if_neg hcneg, hcont]
      rfl
  · have hcneg : ¬((s.step).obtener_posiciones = s.obtener_posiciones
        ∧ (s.step).lista_robots.any (fun r => r.estado ≠ Estado.INACTIVO) = true) := by
      intro hc
      exact hmv (hposiff.mp hc.1)
    rw [if_neg (fun hc => hmv hc.1), if_neg hcneg, hcont]
    rfl

/-- C2.  No swap: two distinct robots never exchange distinct positions
across one tick.  The robot resolved first books the directed edge of its
move at the arrival tick; for a swap the other robot would need the exact
opposite directed edge, which puede_moverse reports as taken. -/
theorem sin_swap_en_paso (s : SimAlmacen) {i j : Nat} (hij : i ≠ j)
    {u v : Celda} (huv : u ≠ v) :
    ¬(posEn s i = u ∧ posEn (s.step) i = v
      ∧ posEn s j = v ∧ posEn (s.step) j = u) := by
  rintro ⟨e1, e2, e3, e4⟩
  have hnuc := preResolve_nucleo s
  obtain ⟨iL, iT, iC, iUn, iFld, iMono, iMov, iSwap, iFlag⟩ :=
    resolverFold_spec (s.liberar.asignar.proponer).2
      (List.range (s.liberar.asignar.proponer).1.lista_robots.length)
      (s.liberar.asignar.proponer).1 false
      ((s.liberar.asignar.proponer).1.resolver (s.liberar.asignar.proponer).2) rfl
      (List.nodup_range _) (fun k hk => List.mem_range.mp hk)
  have hposstep : ∀ k, posEn (s.step) k
      = posEn ((s.liberar.asignar.proponer).1.resolver (s.liberar.asignar.proponer).2).1 k :=
    fun k => congrArg (fun l => (l.getD k robotDefault).pos) (step_lista s)
  have hnomove : ∀ k, ¬ k < (s.liberar.asignar.proponer).1.lista_robots.length →
      posEn (s.step) k = posEn s k := by
    intro k hk
    rw [hposstep k]
    exact (congrArg Robot.pos (iUn k (fun hm => hk (List.mem_range.mp hm)))).trans
      (hnuc.2.1 k)
  by_cases hi : i < (s.liberar.asignar.proponer).1.lista_robots.length
  · by_cases hj : j < (s.liberar.asignar.proponer).1.lista_robots.length
    · refine iSwap i (List.mem_range.mpr hi) j (List.mem_range.mpr hj) hij ⟨?_, ?_, ?_⟩
      · rw [hnuc.2.1 i, hnuc.2.1 j, e1, e3]
        exact huv
      · rw [← hposstep i, hnuc.2.1 j, e2, e3]
      · rw [← hposstep j, hnuc.2.1 i, e4, e1]
    · exact huv (e4.symm.trans ((hnomove j hj).trans e3))
  · exact huv (((hnomove i hi).trans e1).symm.trans e2)

/-- Witness for C2 at the corridor scenario. -/
theorem sin_swap_en_paso_wit :
    ¬(posEn (simDe escCorredor) 0 = (0, 0)
      ∧ posEn ((simDe escCorredor).step) 0 = (2, 0)
      ∧ posEn (simDe escCorredor) 1 = (2, 0)
      ∧ posEn ((simDe escCorredor).step) 1 = (0, 0)) :=
  sin_swap_en_paso (simDe escCorredor) (by decide) (by decide)

/-! Claim C3: correctness of the A* planner.  The development follows the
classical proof for A* with a consistent heuristic: every closed cell holds
an optimal cost, every scored unclosed cell keeps a fresh heap entry, and
popping the goal therefore yields a shortest path. -/

theorem entradaLe_refl (a : Entrada) : entradaLe a a := by
  unfold entradaLe
  omega

theorem entradaLe_total (a b : Entrada) : entradaLe a b ∨ entradaLe b a := by
  unfold entradaLe
  omega

theorem entradaLe_trans {a b c : Entrada} (h1 : entradaLe a b) (h2 : entradaLe b c) :
    entradaLe a c := by
  unfold entradaLe at h1 h2 ⊢
  omega

theorem entradaLe_fst {a b : Entrada} (h : entradaLe a b) : a.1 ≤ b.1 := by
  unfold entradaLe at h
  omega

/-- The fold used by the extract-min returns a member that is a lower bound
of the whole list. -/
theorem minEntrada_spec : ∀ (xs : List Entrada) (x : Entrada),
    minEntrada x xs ∈ x :: xs ∧ ∀ y ∈ x :: xs, entradaLe (minEntrada x xs) y := by
  intro xs
  induction xs with
  | nil =>
    intro x
    refine ⟨List.mem_singleton.mpr rfl, ?_⟩
    intro y hy
    rw [List.mem_singleton.mp hy]
    exact entradaLe_refl _
  | cons e es ih =>
    intro x
    have heq : minEntrada x (e :: es) = minEntrada (if entradaLe x e then x else e) es := by
      unfold minEntrada
      rw [List.foldl_cons]
    obtain ⟨hmem, hle⟩ := ih (if entradaLe x e then x else e)
    constructor
    · rw [heq]
      rcases List.mem_cons.mp hmem with h | h
      · rw [h]
        split
        · exact List.mem_cons_self _ _
        · exact List.mem_cons_of_mem _ (List.mem_cons_self _ _)
      · exact List.mem_cons_of_mem _ (List.mem_cons_of_mem _ h)
    · intro y hy
      rw [heq]
      have hsel : entradaLe (minEntrada (if entradaLe x e then x else e) es)
          (if entradaLe x e then x else e) := hle _ (List.mem_cons_self _ _)
      rcases List.mem_cons.mp hy with h | h
      · rw [h]
        by_cases hxe : entradaLe x e
        · rw [if_pos hxe] at hsel ⊢
          exact hsel
        · rw [if_neg hxe] at hsel ⊢
          rcases entradaLe_total x e with h2 | h2
          · exact absurd h2 hxe
          · exact entradaLe_trans hsel h2
      · rcases List.mem_cons.mp h with h2 | h2
        · rw [h2]
          by_cases hxe : entradaLe x e
          · rw [if_pos hxe] at hsel ⊢
            exact entradaLe_trans hsel hxe
          · rw [if_neg hxe] at hsel ⊢
            exact hsel
        · exact hle y (List.mem_cons_of_mem _ h2)

theorem popMin_none_iff (l : List Entrada) : popMin l = none ↔ l = [] := by
  cases l with
  | nil => simp [popMin]
  | cons x xs => simp [popMin]

/-- Specification of heappop: the returned entry is a member and a lower
bound, and the rest is the list with one occurrence removed. -/
theorem popMin_spec {l : List Entrada} {e : Entrada} {rest : List Entrada}
    (h : popMin l = some (e, rest)) :
    e ∈ l ∧ (∀ y ∈ l, entradaLe e y) ∧ rest = l.erase e := by
  cases l with
  | nil => cases h
  | cons x xs =>
    simp only [popMin] at h
    obtain ⟨h1, h2⟩ := Prod.mk.injEq _ _ _ _ ▸ Option.some.injEq _ _ ▸ h
    obtain ⟨hmem, hle⟩ := minEntrada_spec xs x
    cases h
    exact ⟨hmem, hle, rfl⟩

/-! Reachability and grid paths. -/

/-- Reachability from s0 in exactly n four-connected steps over valid
cells (the start itself must be valid). -/
inductive Alcanza (g : Grid) (s0 : Celda) : Nat → Celda → Prop where
  | base : celdaValida g s0 = true → Alcanza g s0 0 s0
  | paso {n : Nat} {c c2 : Celda} : Alcanza g s0 n c → c2 ∈ celdas_adyacentes c →
      celdaValida g c2 = true → Alcanza g s0 (n + 1) c2

/-- A nonempty sequence of in-range transitable cells joined by
four-connected moves. -/
def EsRuta (g : Grid) (p : List Celda) : Prop :=
  p ≠ [] ∧ (∀ c ∈ p, celdaValida g c = true)
  ∧ List.Chain' (fun a b => b ∈ celdas_adyacentes a) p

/-- A path from s0 to c of length n + 1 witnesses n-step reachability. -/
theorem esRuta_alcanza (g : Grid) (s0 : Celda) :
    ∀ (p : List Celda), EsRuta g p → p.head? = some s0 →
      ∀ c, p.getLast? = some c → Alcanza g s0 (p.length - 1) c := by
  intro p
  induction p using List.reverseRecOn with
  | nil => intro h; exact absurd rfl h.1
  | append_singleton l a ih =>
    intro hr hh c hl
    rw [List.getLast?_concat] at hl
    have hca : c = a := (Option.some.inj hl).symm
    subst hca
    cases l with
    | nil =>
      simp only [List.nil_append, List.head?_cons] at hh
      have hcs : c = s0 := Option.some.inj hh
      subst hcs
      exact Alcanza.base (hr.2.1 _ (List.mem_singleton.mpr rfl))
    | cons w ws =>
      obtain ⟨hne, hval, hch⟩ := hr
      rw [List.chain'_append] at hch
      obtain ⟨hch1, _, hlast⟩ := hch
      cases hw : (w :: ws).getLast? with
      | none => simp at hw
      | some z =>
        have hadj : c ∈ celdas_adyacentes z := hlast z hw c rfl
        have halc : Alcanza g s0 ((w :: ws).length - 1) z := by
          refine ih ⟨by simp, ?_, hch1⟩ ?_ z hw
          · intro d hd
            exact hval d (List.mem_append_left _ hd)
          · simpa using hh
        have hvalc : celdaValida g c = true :=
          hval c (List.mem_append_right _ (List.mem_singleton.mpr rfl))
        have hfin := Alcanza.paso halc hadj hvalc
        have hlen : (w :: ws).length - 1 + 1 = ((w :: ws) ++ [c]).length - 1 := by
          simp
        rw [hlen] at hfin
        exact hfin

/-- Consistency of the Manhattan heuristic: it changes by at most one
across an adjacency step. -/
theorem heuristica_ady {meta c c2 : Celda} (h : c2 ∈ celdas_adyacentes c) :
    heuristica meta c ≤ heuristica meta c2 + 1 := by
  simp only [celdas_adyacentes, List.mem_cons, List.mem_singleton,
    List.not_mem_nil, or_false] at h
  rcases h with h | h | h | h <;> subst h <;> unfold heuristica <;> simp <;> omega

/-! Counting closed cells, used both to bound costs below the 10**9
sentinel and as the termination measure. -/

/-- All in-range cells of the grid as a finite set. -/
def celdasEnRango (g : Grid) : Finset Celda :=
  ((Finset.range g.ancho) ×ˢ (Finset.range g.alto)).image
    (fun p => ((p.1 : Int), (p.2 : Int)))

theorem card_celdasEnRango (g : Grid) : (celdasEnRango g).card ≤ g.ancho * g.alto := by
  refine le_trans Finset.card_image_le ?_
  rw [Finset.card_product, Finset.card_range, Finset.card_range]

theorem mem_celdasEnRango {g : Grid} {c : Celda} (h : en_rango g c = true) :
    c ∈ celdasEnRango g := by
  unfold en_rango at h
  rw [decide_eq_true_eq] at h
  refine Finset.mem_image.mpr ⟨(c.1.toNat, c.2.toNat), ?_, ?_⟩
  · rw [Finset.mem_product, Finset.mem_range, Finset.mem_range]
    constructor <;> omega
  · have h1 : ((c.1.toNat : Int), (c.2.toNat : Int)) = (c.1, c.2) := by
      rw [Int.toNat_of_nonneg h.1, Int.toNat_of_nonneg h.2.2.1]
    rw [h1]

/-- Number of closed in-range cells. -/
def cardCerrados (g : Grid) (σ : EstadoAE) : Nat :=
  ((celdasEnRango g).filter (fun c => σ.cerrados c = true)).card

theorem cardCerrados_le (g : Grid) (σ : EstadoAE) :
    cardCerrados g σ ≤ g.ancho * g.alto :=
  le_trans (Finset.card_filter_le _ _) (card_celdasEnRango g)

/-- Closing a valid, not yet closed cell increments the closed count. -/
theorem cardCerrados_cierra (g : Grid) (σ : EstadoAE) (cur : Celda)
    (hmem : cur ∈ celdasEnRango g) (hnc : σ.cerrados cur = false) :
    ((celdasEnRango g).filter (fun c => (c == cur || σ.cerrados c) = true)).card
      = cardCerrados g σ + 1 := by
  have hset : (celdasEnRango g).filter (fun c => (c == cur || σ.cerrados c) = true)
      = insert cur ((celdasEnRango g).filter (fun c => σ.cerrados c = true)) := by
    ext c
    simp only [Finset.mem_filter, Finset.mem_insert, Bool.or_eq_true, beq_iff_eq]
    constructor
    · rintro ⟨hm, hc | hc⟩
      · exact Or.inl hc
      · exact Or.inr ⟨hm, hc⟩
    · rintro (hc | ⟨hm, hc⟩)
      · subst hc
        exact ⟨hmem, Or.inl rfl⟩
      · exact ⟨hm, Or.inr hc⟩
  rw [hset, Finset.card_insert_of_not_mem]
  · rfl
  · simp only [Finset.mem_filter]
    rintro ⟨_, hc⟩
    rw [hnc] at hc
    cases hc

/-- Invariant fields of the A* loop state that do not mention the
relaxation completeness of closed cells. -/
structure CamposAE (g : Grid) (s0 meta : Celda) (σ : EstadoAE) : Prop where
  open_ok : ∀ e ∈ σ.abiertos, celdaValida g e.2.2 = true
      ∧ e.1 = e.2.1 + heuristica meta e.2.2
      ∧ ∃ gc, σ.costo_g e.2.2 = some gc ∧ gc ≤ e.2.1
  costo_s0 : σ.costo_g s0 = some 0
  costo_reach : ∀ c gc, σ.costo_g c = some gc →
      celdaValida g c = true ∧ Alcanza g s0 gc c
  costo_bound : ∀ c gc, σ.costo_g c = some gc → gc ≤ cardCerrados g σ
  cerrado_opt : ∀ c, σ.cerrados c = true →
      ∃ gc, σ.costo_g c = some gc ∧ ∀ n, Alcanza g s0 n c → gc ≤ n
  fresco : ∀ c gc, σ.costo_g c = some gc → σ.cerrados c = false →
      (gc + heuristica meta c, gc, c) ∈ σ.abiertos
  vino_ok : ∀ c p, σ.vino_de c = some p → celdaValida g c = true
      ∧ c ∈ celdas_adyacentes p ∧ σ.cerrados p = true
      ∧ ∃ gc gp, σ.costo_g c = some gc ∧ σ.costo_g p = some gp ∧ gc = gp + 1
  vino_s0 : σ.vino_de s0 = none
  vino_total : ∀ c gc, σ.costo_g c = some gc → c ≠ s0 → (σ.vino_de c).isSome = true
  meta_abierto : σ.cerrados meta = false

/-- Full A* loop invariant: every closed cell has also relaxed each of its
valid neighbours. -/
structure InvAE (g : Grid) (s0 meta : Celda) (σ : EstadoAE)
    extends CamposAE g s0 meta σ : Prop where
  cerrado_relax : ∀ c, σ.cerrados c = true → ∀ c2 ∈ celdas_adyacentes c,
      celdaValida g c2 = true →
      ∃ gc gc2, σ.costo_g c = some gc ∧ σ.costo_g c2 = some gc2 ∧ gc2 ≤ gc + 1

/-- Frontier lemma: any reachable unclosed cell is preceded by a scored
unclosed cell whose f-key is bounded through the heuristic consistency. -/
theorem frontera {g : Grid} {s0 meta : Celda} {σ : EstadoAE}
    (inv : InvAE g s0 meta σ) :
    ∀ n c, Alcanza g s0 n c → σ.cerrados c = false →
    ∃ z gz i, σ.costo_g z = some gz ∧ σ.cerrados z = false ∧ gz ≤ i
      ∧ i + heuristica meta z ≤ n + heuristica meta c := by
  intro n c halc
  induction halc with
  | base hv =>
    intro hnc
    exact ⟨s0, 0, 0, inv.costo_s0, hnc, Nat.le_refl 0, Nat.le_refl _⟩
  | paso halc2 hadj hval ih =>
    rename_i n2 c1 c2
    intro hnc2
    by_cases hcl : σ.cerrados c1 = true
    · obtain ⟨gc1, hgc1, hopt⟩ := inv.cerrado_opt c1 hcl
      obtain ⟨gca, gcb, hca, hcb, hle2⟩ := inv.cerrado_relax c1 hcl c2 hadj hval
      have hgeq : gca = gc1 := by
        rw [hgc1] at hca
        exact (Option.some.inj hca).symm
      have hopt2 : gc1 ≤ n2 := hopt n2 halc2
      exact ⟨c2, gcb, n2 + 1, hcb, hnc2, by omega, Nat.le_refl _⟩
    · have hnc1 : σ.cerrados c1 = false := by
        revert hcl
        cases σ.cerrados c1 <;> simp
      obtain ⟨z, gz, i, h1, h2, h3, h4⟩ := ih hnc1
      refine ⟨z, gz, i, h1, h2, h3, ?_⟩
      have hh := @heuristica_ady meta _ _ hadj
      omega

/-- Closing lemma: a popped unclosed cell carries its own current cost,
and that cost is optimal. -/
theorem cierre_optimo {g : Grid} {s0 meta : Celda} {σ : EstadoAE}
    {f gv : Nat} {cur : Celda} {rest : List Entrada}
    (inv : InvAE g s0 meta σ)
    (hpop : popMin σ.abiertos = some ((f, gv, cur), rest))
    (hnc : σ.cerrados cur = false) :
    σ.costo_g cur = some gv ∧ celdaValida g cur = true
    ∧ (∀ n, Alcanza g s0 n cur → gv ≤ n) := by
  obtain ⟨hmem, hle, hrest⟩ := popMin_spec hpop
  obtain ⟨hval, hf, gc, hgc, hgcle⟩ := inv.open_ok _ hmem
  have hfresh := inv.fresco cur gc hgc hnc
  have h1 := entradaLe_fst (hle _ hfresh)
  have hgv : gv = gc := by
    simp only at hf h1 hgcle
    omega
  refine ⟨by rw [hgv]; exact hgc, hval, ?_⟩
  intro n halc
  obtain ⟨z, gz, i, hz1, hz2, hz3, hz4⟩ := frontera inv n cur halc hnc
  have hzfresh := inv.fresco z gz hz1 hz2
  have h2 := entradaLe_fst (hle _ hzfresh)
  simp only at hf h2
  omega

/-- Skipping an already closed popped entry keeps the invariant. -/
theorem inv_skip {g : Grid} {s0 meta : Celda} {σ : EstadoAE}
    {f gv : Nat} {cur : Celda} {rest : List Entrada}
    (inv : InvAE g s0 meta σ)
    (hpop : popMin σ.abiertos = some ((f, gv, cur), rest))
    (hcl : σ.cerrados cur = true) :
    InvAE g s0 meta { σ with abiertos := rest } := by
  obtain ⟨hmem, hle, hrest⟩ := popMin_spec hpop
  refine ⟨⟨?_, inv.costo_s0, inv.costo_reach, inv.costo_bound, inv.cerrado_opt,
    ?_, inv.vino_ok, inv.vino_s0, inv.vino_total, inv.meta_abierto⟩,
    inv.cerrado_relax⟩
  · intro e he
    refine inv.open_ok e ?_
    rw [hrest] at he
    exact List.erase_subset _ _ he
  · intro c gc hgc hnc
    have hent := inv.fresco c gc hgc hnc
    show _ ∈ rest
    rw [hrest]
    refine (List.mem_erase_of_ne ?_).mpr hent
    intro he
    have hcc : c = cur := congrArg (fun e : Entrada => e.2.2) he
    rw [hcc, hcl] at hnc
    cases hnc

/-! Relaxation preservation. -/

/-- Reduction of relajarUno when the neighbour is out of range or blocked. -/
theorem relajarUno_invalido {g : Grid} {meta cur n : Celda} {gv : Nat}
    {σ : EstadoAE} (hval : ¬ (en_rango g n && es_transitable g n) = true) :
    relajarUno g meta cur gv σ n = σ := by
  unfold relajarUno
  exact if_neg hval

/-- Reduction of relajarUno when the tentative cost is not an improvement. -/
theorem relajarUno_sin_mejora {g : Grid} {meta cur n : Celda} {gv : Nat}
    {σ : EstadoAE} (hval : (en_rango g n && es_transitable g n) = true)
    (hge : ¬ gv + 1 < getCosto σ n) :
    relajarUno g meta cur gv σ n = σ := by
  unfold relajarUno
  rw [if_pos hval]
  exact if_neg hge

/-- Reduction of relajarUno when the tentative cost improves: push a fresh
heap entry and update parent and cost maps at the neighbour. -/
theorem relajarUno_mejora {g : Grid} {meta cur n : Celda} {gv : Nat}
    {σ : EstadoAE} (hval : (en_rango g n && es_transitable g n) = true)
    (hlt : gv + 1 < getCosto σ n) :
    relajarUno g meta cur gv σ n =
      { abiertos := (gv + 1 + heuristica meta n, gv + 1, n) :: σ.abiertos
        vino_de := fun c => if c = n then some cur else σ.vino_de c
        costo_g := fun c => if c = n then some (gv + 1) else σ.costo_g c
        cerrados := σ.cerrados } := by
  unfold relajarUno
  rw [if_pos hval]
  exact if_pos hlt

/-- Mid-relaxation invariant: all CamposAE fields, relaxation completeness
for every closed cell other than the cell cur being expanded, and the
bookkeeping facts about cur needed to finish its own relaxation. -/
structure InvRelax (g : Grid) (s0 meta cur : Celda) (gv : Nat) (σ : EstadoAE)
    extends CamposAE g s0 meta σ : Prop where
  relax_otros : ∀ c, σ.cerrados c = true → c ≠ cur →
      ∀ c2 ∈ celdas_adyacentes c, celdaValida g c2 = true →
      ∃ gc gc2, σ.costo_g c = some gc ∧ σ.costo_g c2 = some gc2 ∧ gc2 ≤ gc + 1
  cur_cerrado : σ.cerrados cur = true
  cur_costo : σ.costo_g cur = some gv
  cota_cur : gv + 1 ≤ cardCerrados g σ

/-- One neighbour relaxation preserves the mid-invariant, leaves the cost of
a valid neighbour at most gv + 1, never increases any recorded cost, and
does not touch the closed set. -/
theorem relajarUno_preserva {g : Grid} {s0 meta cur : Celda} {gv : Nat}
    {σ : EstadoAE} (hsize : g.ancho * g.alto < GRANDE)
    (inv : InvRelax g s0 meta cur gv σ) (n : Celda)
    (hadj : n ∈ celdas_adyacentes cur) :
    InvRelax g s0 meta cur gv (relajarUno g meta cur gv σ n)
    ∧ (celdaValida g n = true →
        ∃ gn, (relajarUno g meta cur gv σ n).costo_g n = some gn ∧ gn ≤ gv + 1)
    ∧ (∀ c gc0, σ.costo_g c = some gc0 →
        ∃ gc, (relajarUno g meta cur gv σ n).costo_g c = some gc ∧ gc ≤ gc0)
    ∧ (relajarUno g meta cur gv σ n).cerrados = σ.cerrados := by
  by_cases hval : (en_rango g n && es_transitable g n) = true
  · by_cases hlt : gv + 1 < getCosto σ n
    · have hred := @relajarUno_mejora g meta cur n gv σ hval hlt
      have hvaln : celdaValida g n = true := hval
      have hcosto : ∀ c, (relajarUno g meta cur gv σ n).costo_g c
          = if c = n then some (gv + 1) else σ.costo_g c := by
        intro c
        rw [hred]
      have hvino : ∀ c, (relajarUno g meta cur gv σ n).vino_de c
          = if c = n then some cur else σ.vino_de c := by
        intro c
        rw [hred]
      have habier : (relajarUno g meta cur gv σ n).abiertos
          = (gv + 1 + heuristica meta n, gv + 1, n) :: σ.abiertos := by
        rw [hred]
      have hcerr : (relajarUno g meta cur gv σ n).cerrados = σ.cerrados := by
        rw [hred]
      have hcard : cardCerrados g (relajarUno g meta cur gv σ n) = cardCerrados g σ := by
        unfold cardCerrados
        rw [hcerr]
      have halcn : Alcanza g s0 (gv + 1) n :=
        Alcanza.paso (inv.costo_reach cur gv inv.cur_costo).2 hadj hvaln
      have hncn : σ.cerrados n = false := by
        by_contra hcl
        have hcl2 : σ.cerrados n = true := by
          revert hcl
          cases σ.cerrados n <;> simp
        obtain ⟨gn, hgn, hopt⟩ := inv.cerrado_opt n hcl2
        have hget : getCosto σ n = gn := by
          unfold getCosto
          rw [hgn]
          rfl
        have := hopt (gv + 1) halcn
        omega
      have hne_cur : n ≠ cur := by
        intro h
        rw [h, inv.cur_cerrado] at hncn
        cases hncn
      have hne_s0 : n ≠ s0 := by
        intro h
        have hget : getCosto σ n = 0 := by
          unfold getCosto
          rw [h, inv.costo_s0]
          rfl
        omega
      refine ⟨⟨⟨?_, ?_, ?_, ?_, ?_, ?_, ?_, ?_, ?_, ?_⟩, ?_, ?_, ?_, ?_⟩, ?_, ?_, hcerr⟩
      · -- open_ok
        intro e he
        rw [habier] at he
        rcases List.mem_cons.mp he with hee | hee
        · subst hee
          refine ⟨hvaln, rfl, gv + 1, ?_, Nat.le_refl _⟩
          rw [hcosto]
          simp
        · obtain ⟨hv, hf, gc, hgc, hle⟩ := inv.open_ok e hee
          by_cases he2 : e.2.2 = n
          · have hgn : σ.costo_g n = some gc := by
              rw [← he2]
              exact hgc
            have hget : getCosto σ n = gc := by
              unfold getCosto
              rw [hgn]
              rfl
            refine ⟨hv, hf, gv + 1, ?_, by omega⟩
            rw [hcosto, if_pos he2]
          · refine ⟨hv, hf, gc, ?_, hle⟩
            rw [hcosto, if_neg he2]
            exact hgc
      · -- costo_s0
        rw [hcosto, if_neg (fun h => hne_s0 h.symm)]
        exact inv.costo_s0
      · -- costo_reach
        intro c gc hgc
        rw [hcosto] at hgc
        by_cases hc : c = n
        · rw [if_pos hc] at hgc
          have hgceq : gc = gv + 1 := (Option.some.inj hgc).symm
          rw [hc, hgceq]
          exact ⟨hvaln, halcn⟩
        · rw [if_neg hc] at hgc
          exact inv.costo_reach c gc hgc
      · -- costo_bound
        intro c gc hgc
        rw [hcosto] at hgc
        rw [hcard]
        by_cases hc : c = n
        · rw [if_pos hc] at hgc
          have hgceq : gc = gv + 1 := (Option.some.inj hgc).symm
          have := inv.cota_cur
          omega
        · rw [if_neg hc] at hgc
          exact inv.costo_bound c gc hgc
      · -- cerrado_opt
        intro c hcl
        rw [hcerr] at hcl
        have hcn : c ≠ n := by
          intro h
          rw [h, hncn] at hcl
          cases hcl
        obtain ⟨gc, hgc, hopt⟩ := inv.cerrado_opt c hcl
        refine ⟨gc, ?_, hopt⟩
        rw [hcosto, if_neg hcn]
        exact hgc
      · -- fresco
        intro c gc hgc hcl
        rw [hcosto] at hgc
        rw [hcerr] at hcl
        rw [habier]
        by_cases hc : c = n
        · rw [if_pos hc] at hgc
          have hgceq : gc = gv + 1 := (Option.some.inj hgc).symm
          rw [hc, hgceq]
          exact List.mem_cons_self _ _
        · rw [if_neg hc] at hgc
          exact List.mem_cons_of_mem _ (inv.fresco c gc hgc hcl)
      · -- vino_ok
        intro c p hvp
        rw [hvino] at hvp
        by_cases hc : c = n
        · rw [if_pos hc] at hvp
          have hpc : p = cur := (Option.some.inj hvp).symm
          rw [hc, hpc]
          refine ⟨hvaln, hadj, ?_, gv + 1, gv, ?_, ?_, rfl⟩
          · rw [hcerr]
            exact inv.cur_cerrado
          · rw [hcosto]
            simp
          · rw [hcosto, if_neg hne_cur.symm]
            exact inv.cur_costo
        · rw [if_neg hc] at hvp
          obtain ⟨hv, hadj2, hclp, gc, gp, hgc, hgp, heq⟩ := inv.vino_ok c p hvp
          have hpn : p ≠ n := by
            intro h
            rw [h, hncn] at hclp
            cases hclp
          refine ⟨hv, hadj2, ?_, gc, gp, ?_, ?_, heq⟩
          · rw [hcerr]
            exact hclp
          · rw [hcosto, if_neg hc]
            exact hgc
          · rw [hcosto, if_neg hpn]
            exact hgp
      · -- vino_s0
        rw [hvino, if_neg (fun h => hne_s0 h.symm)]
        exact inv.vino_s0
      · -- vino_total
        intro c gc hgc hcs
        rw [hcosto] at hgc
        rw [hvino]
        by_cases hc : c = n
        · rw [if_pos hc]
          rfl
        · rw [if_neg hc] at hgc
          rw [if_neg hc]
          exact inv.vino_total c gc hgc hcs
      · -- meta_abierto
        rw [hcerr]
        exact inv.meta_abierto
      · -- relax_otros
        intro c hcl hcc c2 hadj2 hval2
        rw [hcerr] at hcl
        have hcn : c ≠ n := by
          intro h
          rw [h, hncn] at hcl
          cases hcl
        obtain ⟨gc, gc2, hgc, hgc2, hle⟩ := inv.relax_otros c hcl hcc c2 hadj2 hval2
        by_cases hc2 : c2 = n
        · have hgn : σ.costo_g n = some gc2 := by
            rw [← hc2]
            exact hgc2
          have hget : getCosto σ n = gc2 := by
            unfold getCosto
            rw [hgn]
            rfl
          refine ⟨gc, gv + 1, ?_, ?_, by omega⟩
          · rw [hcosto, if_neg hcn]
            exact hgc
          · rw [hcosto, if_pos hc2]
        · refine ⟨gc, gc2, ?_, ?_, hle⟩
          · rw [hcosto, if_neg hcn]
            exact hgc
          · rw [hcosto, if_neg hc2]
            exact hgc2
      · -- cur_cerrado
        rw [hcerr]
        exact inv.cur_cerrado
      · -- cur_costo
        rw [hcosto, if_neg hne_cur.symm]
        exact inv.cur_costo
      · -- cota_cur
        rw [hcard]
        exact inv.cota_cur
      · -- neighbour cost bound
        intro _
        refine ⟨gv + 1, ?_, Nat.le_refl _⟩
        rw [hcosto]
        simp
      · -- monotone costs
        intro c gc0 hgc0
        rw [hcosto]
        by_cases hc : c = n
        · have hget : getCosto σ n = gc0 := by
            unfold getCosto
            rw [← hc, hgc0]
            rfl
          refine ⟨gv + 1, ?_, by omega⟩
          rw [if_pos hc]
        · refine ⟨gc0, ?_, Nat.le_refl _⟩
          rw [if_neg hc]
          exact hgc0
    · have hred := @relajarUno_sin_mejora g meta cur n gv σ hval hlt
      rw [hred]
      refine ⟨inv, ?_, fun c gc0 h => ⟨gc0, h, Nat.le_refl _⟩, rfl⟩
      intro _
      cases hcn : σ.costo_g n with
      | none =>
        exfalso
        have hget : getCosto σ n = GRANDE := by
          unfold getCosto
          rw [hcn]
          rfl
        have h1 := inv.cota_cur
        have h2 := cardCerrados_le g σ
        omega
      | some gn =>
        have hget : getCosto σ n = gn := by
          unfold getCosto
          rw [hcn]
          rfl
        exact ⟨gn, rfl, by omega⟩
  · have hred := @relajarUno_invalido g meta cur n gv σ hval
    rw [hred]
    refine ⟨inv, ?_, fun c gc0 h => ⟨gc0, h, Nat.le_refl _⟩, rfl⟩
    intro hc
    exact absurd hc hval

/-- Folding the neighbour relaxation over any sublist of the neighbours of
cur preserves the mid-invariant, bounds each valid listed neighbour's cost
by gv + 1, never increases costs and keeps the closed set. -/
theorem relajarFold_preserva {g : Grid} {s0 meta cur : Celda} {gv : Nat}
    (hsize : g.ancho * g.alto < GRANDE) :
    ∀ (l : List Celda) (σ : EstadoAE), InvRelax g s0 meta cur gv σ →
    (∀ n ∈ l, n ∈ celdas_adyacentes cur) →
    InvRelax g s0 meta cur gv (l.foldl (relajarUno g meta cur gv) σ)
    ∧ (∀ n ∈ l, celdaValida g n = true →
        ∃ gn, (l.foldl (relajarUno g meta cur gv) σ).costo_g n = some gn
          ∧ gn ≤ gv + 1)
    ∧ (∀ c gc0, σ.costo_g c = some gc0 →
        ∃ gc, (l.foldl (relajarUno g meta cur gv) σ).costo_g c = some gc
          ∧ gc ≤ gc0)
    ∧ (l.foldl (relajarUno g meta cur gv) σ).cerrados = σ.cerrados := by
  intro l
  induction l with
  | nil =>
    intro σ inv _
    refine ⟨inv, ?_, fun c gc0 h => ⟨gc0, h, Nat.le_refl _⟩, rfl⟩
    intro n hn
    cases hn
  | cons a t ih =>
    intro σ inv hl
    have ha := hl a (List.mem_cons_self a t)
    obtain ⟨inv1, hb1, hm1, hc1⟩ := relajarUno_preserva hsize inv a ha
    obtain ⟨inv2, hb2, hm2, hc2⟩ := ih (relajarUno g meta cur gv σ a) inv1
      (fun n hn => hl n (List.mem_cons_of_mem a hn))
    rw [List.foldl_cons]
    refine ⟨inv2, ?_, ?_, ?_⟩
    · intro n hn hv
      rcases List.mem_cons.mp hn with hna | hnt
      · rw [hna] at hv ⊢
        obtain ⟨gn, hgn, hle⟩ := hb1 hv
        obtain ⟨gn2, hgn2, hle2⟩ := hm2 a gn hgn
        exact ⟨gn2, hgn2, by omega⟩
      · exact hb2 n hnt hv
    · intro c gc0 h
      obtain ⟨g1, h1, l1⟩ := hm1 c gc0 h
      obtain ⟨g2, h2, l2⟩ := hm2 c g1 h1
      exact ⟨g2, h2, by omega⟩
    · rw [hc2, hc1]

/-- Expanding a popped, not yet closed, non-goal cell — closing it and
relaxing its four neighbours — preserves the full A* invariant. -/
theorem inv_cierra_relaja {g : Grid} {s0 meta : Celda} {σ : EstadoAE}
    {f gv : Nat} {cur : Celda} {rest : List Entrada}
    (hsize : g.ancho * g.alto < GRANDE)
    (inv : InvAE g s0 meta σ)
    (hpop : popMin σ.abiertos = some ((f, gv, cur), rest))
    (hnc : σ.cerrados cur = false) (hne : cur ≠ meta) :
    InvAE g s0 meta (relajarVecinos g meta cur gv
      { σ with abiertos := rest
               cerrados := fun c => c == cur || σ.cerrados c }) := by
  obtain ⟨hcosto_cur, hval_cur, hopt_cur⟩ := cierre_optimo inv hpop hnc
  obtain ⟨hmem, hle, hresteq⟩ := popMin_spec hpop
  have hb : gv ≤ cardCerrados g σ := inv.costo_bound cur gv hcosto_cur
  have hrango : en_rango g cur = true := by
    unfold celdaValida at hval_cur
    exact (Bool.and_eq_true _ _).mp hval_cur |>.1
  have hcard1 : cardCerrados g
      ({ σ with abiertos := rest
                cerrados := fun c => c == cur || σ.cerrados c } : EstadoAE)
      = cardCerrados g σ + 1 :=
    cardCerrados_cierra g σ cur (mem_celdasEnRango hrango) hnc
  have hinv1 : InvRelax g s0 meta cur gv
      { σ with abiertos := rest
               cerrados := fun c => c == cur || σ.cerrados c } := by
    refine ⟨⟨?_, inv.costo_s0, inv.costo_reach, ?_, ?_, ?_, ?_, inv.vino_s0,
      inv.vino_total, ?_⟩, ?_, ?_, hcosto_cur, ?_⟩
    · -- open_ok
      intro e he
      refine inv.open_ok e ?_
      rw [hresteq] at he
      exact List.erase_subset _ _ he
    · -- costo_bound
      intro c gc hgc
      rw [hcard1]
      exact Nat.le_succ_of_le (inv.costo_bound c gc hgc)
    · -- cerrado_opt
      intro c hcl
      have hcl2 : (c == cur || σ.cerrados c) = true := hcl
      rcases Bool.or_eq_true _ _ |>.mp hcl2 with hc | hc
      · have hcc : c = cur := by
          exact beq_iff_eq.mp hc
        rw [hcc]
        exact ⟨gv, hcosto_cur, hopt_cur⟩
      · exact inv.cerrado_opt c hc
    · -- fresco
      intro c gc hgc hcl
      have hcl2 : (c == cur || σ.cerrados c) = false := hcl
      have hcc : c ≠ cur ∧ σ.cerrados c = false := by
        constructor
        · intro h
          rw [h] at hcl2
          simp at hcl2
        · rcases Bool.or_eq_false_iff.mp hcl2 with ⟨_, h2⟩
          exact h2
      have hent := inv.fresco c gc hgc hcc.2
      show _ ∈ rest
      rw [hresteq]
      refine (List.mem_erase_of_ne ?_).mpr hent
      intro he
      exact hcc.1 (congrArg (fun e : Entrada => e.2.2) he)
    · -- vino_ok
      intro c p hvp
      obtain ⟨hv, hadj2, hclp, gc, gp, hgc, hgp, heq⟩ := inv.vino_ok c p hvp
      refine ⟨hv, hadj2, ?_, gc, gp, hgc, hgp, heq⟩
      show (p == cur || σ.cerrados p) = true
      rw [hclp]
      simp
    · -- meta_abierto
      show (meta == cur || σ.cerrados meta) = false
      rw [inv.meta_abierto]
      simp
      intro h
      exact hne h.symm
    · -- relax_otros
      intro c hcl hcc c2 hadj2 hval2
      have hcl2 : (c == cur || σ.cerrados c) = true := hcl
      rcases Bool.or_eq_true _ _ |>.mp hcl2 with hc | hc
      · exact absurd (beq_iff_eq.mp hc) hcc
      · exact inv.cerrado_relax c hc c2 hadj2 hval2
    · -- cur_cerrado
      show (cur == cur || σ.cerrados cur) = true
      simp
    · -- cota_cur
      rw [hcard1]
      omega
  obtain ⟨invF, hbF, _, hcF⟩ := relajarFold_preserva hsize (celdas_adyacentes cur)
    _ hinv1 (fun n hn => hn)
  unfold relajarVecinos
  refine ⟨invF.toCamposAE, ?_⟩
  intro c hclc hc2
  rw [hcF] at hclc
  have hcl2 : (c == cur || σ.cerrados c) = true := hclc
  rcases Bool.or_eq_true _ _ |>.mp hcl2 with hc | hc
  · have hcc : c = cur := beq_iff_eq.mp hc
    intro hadj2 hval2
    rw [hcc] at hadj2
    obtain ⟨gn, hgn, hgle⟩ := hbF hc2 hadj2 hval2
    refine ⟨gv, gn, ?_, hgn, by omega⟩
    rw [hcc]
    exact invF.cur_costo
  · intro hadj2 hval2
    by_cases hccur : c = cur
    · rw [hccur] at hc
      rw [hnc] at hc
      cases hc
    · refine invF.relax_otros c ?_ hccur hc2 hadj2 hval2
      rw [hcF]
      show (c == cur || σ.cerrados c) = true
      rw [hc]
      simp

/-- The initial A* state satisfies the loop invariant when the start cell is
valid. -/
theorem inv_inicial {g : Grid} {inicio meta : Celda}
    (hv : celdaValida g inicio = true) :
    InvAE g inicio meta (estadoInicialAE g inicio meta) := by
  refine ⟨⟨?_, ?_, ?_, ?_, ?_, ?_, ?_, rfl, ?_, rfl⟩, ?_⟩
  · intro e he
    have hee : e = (heuristica meta inicio, 0, inicio) := by
      simpa [estadoInicialAE] using he
    subst hee
    refine ⟨hv, by simp, 0, ?_, Nat.le_refl _⟩
    show (if inicio = inicio then some 0 else none) = some 0
    simp
  · show (if inicio = inicio then some 0 else none) = some 0
    simp
  · intro c gc hgc
    change (if c = inicio then some 0 else none) = some gc at hgc
    by_cases hc : c = inicio
    · rw [if_pos hc] at hgc
      have : gc = 0 := (Option.some.inj hgc).symm
      rw [hc, this]
      exact ⟨hv, Alcanza.base hv⟩
    · rw [if_neg hc] at hgc
      cases hgc
  · intro c gc hgc
    change (if c = inicio then some 0 else none) = some gc at hgc
    by_cases hc : c = inicio
    · rw [if_pos hc] at hgc
      have : gc = 0 := (Option.some.inj hgc).symm
      omega
    · rw [if_neg hc] at hgc
      cases hgc
  · intro c hcl
    cases hcl
  · intro c gc hgc _
    change (if c = inicio then some 0 else none) = some gc at hgc
    by_cases hc : c = inicio
    · rw [if_pos hc] at hgc
      have hgc0 : gc = 0 := (Option.some.inj hgc).symm
      rw [hc, hgc0]
      show (0 + heuristica meta inicio, 0, inicio)
        ∈ [(heuristica meta inicio, 0, inicio)]
      simp
    · rw [if_neg hc] at hgc
      cases hgc
  · intro c p hvp
    cases hvp
  · intro c gc hgc hcs
    change (if c = inicio then some 0 else none) = some gc at hgc
    by_cases hc : c = inicio
    · exact absurd hc hcs
    · rw [if_neg hc] at hgc
      cases hgc
  · intro c hcl
    cases hcl

/-! Path reconstruction. -/

/-- Reconstruction along the vino_de parent chain from any cell of recorded
cost gc, with fuel at least gc, yields a valid grid path of exactly gc + 1
cells from s0 to that cell. -/
theorem reconstruir_ok {g : Grid} {s0 meta : Celda} {σ : EstadoAE}
    (inv : CamposAE g s0 meta σ) :
    ∀ gc c fuel, σ.costo_g c = some gc → gc ≤ fuel →
    EsRuta g (reconstruir fuel σ.vino_de c)
    ∧ (reconstruir fuel σ.vino_de c).head? = some s0
    ∧ (reconstruir fuel σ.vino_de c).getLast? = some c
    ∧ (reconstruir fuel σ.vino_de c).length = gc + 1 := by
  intro gc
  induction gc with
  | zero =>
    intro c fuel hgc _
    obtain ⟨hvc, halc⟩ := inv.costo_reach c 0 hgc
    have hcs0 : c = s0 := by
      cases halc
      rfl
    have hrec : reconstruir fuel σ.vino_de c = [c] := by
      cases fuel with
      | zero => rfl
      | succ fu =>
        show (match σ.vino_de c with
          | none => [c]
          | some p => reconstruir fu σ.vino_de p ++ [c]) = [c]
        rw [hcs0, inv.vino_s0]
    rw [hrec, hcs0]
    refine ⟨⟨by simp, ?_, by simp⟩, rfl, rfl, rfl⟩
    intro d hd
    rw [List.mem_singleton.mp hd]
    rw [← hcs0]
    exact hvc
  | succ gcp ih =>
    intro c fuel hgc hle
    have hcs0 : c ≠ s0 := by
      intro h
      rw [h, inv.costo_s0] at hgc
      cases Option.some.inj hgc
    have hvt := inv.vino_total c _ hgc hcs0
    cases hv : σ.vino_de c with
    | none =>
      rw [hv] at hvt
      cases hvt
    | some p =>
      obtain ⟨hvalc, hadj, _, gc2, gp, hc2, hp, heq⟩ := inv.vino_ok c p hv
      have hgc2 : gc2 = gcp + 1 := by
        rw [hgc] at hc2
        exact (Option.some.inj hc2).symm
      have hgp : σ.costo_g p = some gcp := by
        rw [hp]
        congr 1
        omega
      cases fuel with
      | zero => omega
      | succ fu =>
        have hrec : reconstruir (fu + 1) σ.vino_de c
            = reconstruir fu σ.vino_de p ++ [c] := by
          show (match σ.vino_de c with
            | none => [c]
            | some q => reconstruir fu σ.vino_de q ++ [c])
            = reconstruir fu σ.vino_de p ++ [c]
          rw [hv]
        obtain ⟨⟨hne, hvalall, hch⟩, hhead, hlast, hlen⟩ :=
          ih p fu hgp (by omega)
        rw [hrec]
        refine ⟨⟨by simp, ?_, ?_⟩, ?_, ?_, ?_⟩
        · intro d hd
          rcases List.mem_append.mp hd with hd1 | hd1
          · exact hvalall d hd1
          · rw [List.mem_singleton.mp hd1]
            exact hvalc
        · rw [List.chain'_append]
          refine ⟨hch, List.chain'_singleton c, ?_⟩
          intro x hx y hy
          rw [hlast] at hx
          have hxp : x = p := (Option.some.inj hx).symm
          have hyc : y = c := by
            simp at hy
            exact hy.symm
          rw [hxp, hyc]
          exact hadj
        · cases hcons : reconstruir fu σ.vino_de p with
          | nil =>
            rw [hcons] at hne
            exact absurd rfl hne
          | cons a t =>
            rw [hcons] at hhead
            rw [List.cons_append, List.head?_cons] at *
            exact hhead
        · rw [List.getLast?_concat]
        · rw [List.length_append, hlen, List.length_singleton]

/-! One-step reductions of the A* loop. -/

/-- Empty heap: the loop returns the failure value. -/
theorem bucleAE_pop_none {g : Grid} {meta : Celda} {fu : Nat} {σ : EstadoAE}
    (hpop : popMin σ.abiertos = none) :
    bucleAE g meta (fu + 1) σ = some none := by
  unfold bucleAE
  rw [hpop]

/-- Popped entry already closed: skip it. -/
theorem bucleAE_pop_cerrado {g : Grid} {meta : Celda} {fu f gv : Nat}
    {cur : Celda} {rest : List Entrada} {σ : EstadoAE}
    (hpop : popMin σ.abiertos = some ((f, gv, cur), rest))
    (hcl : σ.cerrados cur = true) :
    bucleAE g meta (fu + 1) σ = bucleAE g meta fu { σ with abiertos := rest } := by
  simp only [bucleAE, hpop]
  rw [if_pos hcl]

/-- Popped entry is the goal: return the reconstructed path. -/
theorem bucleAE_pop_meta {g : Grid} {meta : Celda} {fu f gv : Nat}
    {cur : Celda} {rest : List Entrada} {σ : EstadoAE}
    (hpop : popMin σ.abiertos = some ((f, gv, cur), rest))
    (hcl : σ.cerrados cur = false) (hm : cur = meta) :
    bucleAE g meta (fu + 1) σ
      = some (some (reconstruir (gv + 1) σ.vino_de cur)) := by
  simp only [bucleAE, hpop]
  rw [if_neg (by rw [hcl]; simp)]
  rw [if_pos hm]

/-- Popped entry is a fresh non-goal cell: close it, relax its neighbours
and continue. -/
theorem bucleAE_pop_expande {g : Grid} {meta : Celda} {fu f gv : Nat}
    {cur : Celda} {rest : List Entrada} {σ : EstadoAE}
    (hpop : popMin σ.abiertos = some ((f, gv, cur), rest))
    (hcl : σ.cerrados cur = false) (hm : cur ≠ meta) :
    bucleAE g meta (fu + 1) σ
      = bucleAE g meta fu (relajarVecinos g meta cur gv
          { σ with abiertos := rest
                   cerrados := fun c => c == cur || σ.cerrados c }) := by
  simp only [bucleAE, hpop]
  rw [if_neg (by rw [hcl]; simp)]
  rw [if_neg hm]

/-- Total correctness of the A* loop relative to the invariant: a returned
path is a valid shortest grid path from s0 to meta, and a failure return
means meta is unreachable from s0. -/
theorem bucle_correcto {g : Grid} {s0 meta : Celda} :
    ∀ (fuel : Nat) (σ : EstadoAE), g.ancho * g.alto < GRANDE →
    InvAE g s0 meta σ →
    ∀ r, bucleAE g meta fuel σ = some r →
    (∀ ruta, r = some ruta →
        EsRuta g ruta ∧ ruta.head? = some s0 ∧ ruta.getLast? = some meta
        ∧ ∀ n, Alcanza g s0 n meta → ruta.length ≤ n + 1)
    ∧ (r = none → ∀ n, ¬ Alcanza g s0 n meta) := by
  intro fuel
  induction fuel with
  | zero =>
    intro σ _ _ r hr
    cases hr
  | succ fu ih =>
    intro σ hsize inv r hr
    cases hpop : popMin σ.abiertos with
    | none =>
      rw [bucleAE_pop_none hpop] at hr
      have hrn : r = none := (Option.some.inj hr).symm
      constructor
      · intro ruta hrta
        rw [hrta] at hrn
        cases hrn
      · intro _ n halc
        obtain ⟨z, gz, i, hz1, hz2, _, _⟩ := frontera inv n meta halc inv.meta_abierto
        have hent := inv.fresco z gz hz1 hz2
        rw [(popMin_none_iff σ.abiertos).mp hpop] at hent
        cases hent
    | some pares =>
      obtain ⟨⟨f, gv, cur⟩, rest⟩ := pares
      by_cases hcl : σ.cerrados cur = true
      · rw [bucleAE_pop_cerrado hpop hcl] at hr
        exact ih _ hsize (inv_skip inv hpop hcl) r hr
      · have hcl2 : σ.cerrados cur = false := by
          revert hcl
          cases σ.cerrados cur <;> simp
        by_cases hm : cur = meta
        · rw [bucleAE_pop_meta hpop hcl2 hm] at hr
          obtain ⟨hcosto, _, hopt⟩ := cierre_optimo inv hpop hcl2
          obtain ⟨hruta, hhead, hlast, hlen⟩ :=
            reconstruir_ok inv.toCamposAE gv cur (gv + 1) hcosto (Nat.le_succ gv)
          have hrr : r = some (reconstruir (gv + 1) σ.vino_de cur) :=
            (Option.some.inj hr).symm
          constructor
          · intro ruta hrta
            rw [hrta] at hrr
            have hre : ruta = reconstruir (gv + 1) σ.vino_de cur :=
              Option.some.inj hrr
            rw [hre]
            refine ⟨hruta, hhead, ?_, ?_⟩
            · rw [hlast, hm]
            · intro n halc
              rw [hlen]
              have := hopt n (hm ▸ halc)
              omega
          · intro hn
            rw [hn] at hrr
            cases hrr
        · rw [bucleAE_pop_expande hpop hcl2 hm] at hr
          exact ih _ hsize (inv_cierra_relaja hsize inv hpop hcl2 hm) r hr

/-! Termination of the A* loop. -/

/-- One relaxation touches neither the closed set nor removes heap
entries: at most one entry is pushed. -/
theorem relajarUno_cotas {g : Grid} {meta cur n : Celda} {gv : Nat}
    {σ : EstadoAE} :
    (relajarUno g meta cur gv σ n).abiertos.length ≤ σ.abiertos.length + 1
    ∧ (relajarUno g meta cur gv σ n).cerrados = σ.cerrados := by
  by_cases hval : (en_rango g n && es_transitable g n) = true
  · by_cases hlt : gv + 1 < getCosto σ n
    · rw [relajarUno_mejora hval hlt]
      exact ⟨by simp, rfl⟩
    · rw [relajarUno_sin_mejora hval hlt]
      exact ⟨Nat.le_succ _, rfl⟩
  · rw [relajarUno_invalido hval]
    exact ⟨Nat.le_succ _, rfl⟩

/-- Folding the relaxation pushes at most one entry per listed neighbour
and keeps the closed set. -/
theorem relajarFold_cotas {g : Grid} {meta cur : Celda} {gv : Nat} :
    ∀ (l : List Celda) (σ : EstadoAE),
    (l.foldl (relajarUno g meta cur gv) σ).abiertos.length
      ≤ σ.abiertos.length + l.length
    ∧ (l.foldl (relajarUno g meta cur gv) σ).cerrados = σ.cerrados := by
  intro l
  induction l with
  | nil =>
    intro σ
    exact ⟨Nat.le_refl _, rfl⟩
  | cons a t ih =>
    intro σ
    obtain ⟨h1, h2⟩ := @relajarUno_cotas g meta cur a gv σ
    obtain ⟨h3, h4⟩ := ih (relajarUno g meta cur gv σ a)
    rw [List.foldl_cons]
    refine ⟨?_, by rw [h4, h2]⟩
    calc (t.foldl (relajarUno g meta cur gv) (relajarUno g meta cur gv σ a)).abiertos.length
        ≤ (relajarUno g meta cur gv σ a).abiertos.length + t.length := h3
    _ ≤ σ.abiertos.length + 1 + t.length := by omega
    _ = σ.abiertos.length + (a :: t).length := by simp; omega

/-- Termination measure: open entries plus five slots per never-closed
in-range cell. -/
def medida (g : Grid) (σ : EstadoAE) : Nat :=
  σ.abiertos.length + 5 * (g.ancho * g.alto - cardCerrados g σ)

/-- With fuel above the measure, the A* loop does not run out of fuel. -/
theorem bucle_termina {g : Grid} {s0 meta : Celda}
    (hsize : g.ancho * g.alto < GRANDE) :
    ∀ (fuel : Nat) (σ : EstadoAE), InvAE g s0 meta σ → medida g σ < fuel →
    (bucleAE g meta fuel σ).isSome = true := by
  intro fuel
  induction fuel with
  | zero =>
    intro σ _ h
    exact absurd h (Nat.not_lt_zero _)
  | succ fu ih =>
    intro σ inv hμ
    cases hpop : popMin σ.abiertos with
    | none =>
      rw [bucleAE_pop_none hpop]
      rfl
    | some pares =>
      obtain ⟨⟨f, gv, cur⟩, rest⟩ := pares
      obtain ⟨hmem, _, hresteq⟩ := popMin_spec hpop
      have hpos : 0 < σ.abiertos.length :=
        List.length_pos.mpr (List.ne_nil_of_mem hmem)
      have hlen : rest.length = σ.abiertos.length - 1 := by
        rw [hresteq]
        exact List.length_erase_of_mem hmem
      by_cases hcl : σ.cerrados cur = true
      · rw [bucleAE_pop_cerrado hpop hcl]
        refine ih _ (inv_skip inv hpop hcl) ?_
        have hcc : cardCerrados g ({ σ with abiertos := rest } : EstadoAE)
            = cardCerrados g σ := rfl
        unfold medida at hμ ⊢
        rw [hcc]
        show rest.length + _ < _
        omega
      · have hcl2 : σ.cerrados cur = false := by
          revert hcl
          cases σ.cerrados cur <;> simp
        by_cases hm : cur = meta
        · rw [bucleAE_pop_meta hpop hcl2 hm]
          rfl
        · rw [bucleAE_pop_expande hpop hcl2 hm]
          refine ih _ (inv_cierra_relaja hsize inv hpop hcl2 hm) ?_
          obtain ⟨hval, _, _⟩ := inv.open_ok _ hmem
          have hrango : en_rango g cur = true := by
            unfold celdaValida at hval
            exact (Bool.and_eq_true _ _).mp hval |>.1
          have hcard1 : cardCerrados g
              ({ σ with abiertos := rest
                        cerrados := fun c => c == cur || σ.cerrados c } : EstadoAE)
              = cardCerrados g σ + 1 :=
            cardCerrados_cierra g σ cur (mem_celdasEnRango hrango) hcl2
          obtain ⟨hlenF, hcerrF⟩ := @relajarFold_cotas g meta cur gv (celdas_adyacentes cur)
            { σ with abiertos := rest
                     cerrados := fun c => c == cur || σ.cerrados c }
          have hcardF : cardCerrados g (relajarVecinos g meta cur gv
              { σ with abiertos := rest
                       cerrados := fun c => c == cur || σ.cerrados c })
              = cardCerrados g σ + 1 := by
            rw [← hcard1]
            unfold cardCerrados relajarVecinos
            rw [hcerrF]
          have hub : cardCerrados g σ + 1 ≤ g.ancho * g.alto := by
            have h2 := cardCerrados_le g
              ({ σ with abiertos := rest
                        cerrados := fun c => c == cur || σ.cerrados c } : EstadoAE)
            rw [hcard1] at h2
            exact h2
          have hlenF2 : (relajarVecinos g meta cur gv
              { σ with abiertos := rest
                       cerrados := fun c => c == cur || σ.cerrados c }).abiertos.length
              ≤ rest.length + 4 := hlenF
          unfold medida at hμ ⊢
          rw [hcardF]
          omega

/-- The closed count of the initial state is zero. -/
theorem cardCerrados_inicial (g : Grid) (inicio meta : Celda) :
    cardCerrados g (estadoInicialAE g inicio meta) = 0 := by
  unfold cardCerrados estadoInicialAE
  simp

/-- C3: for every grid whose cell count stays below the 10**9 sentinel used
by the source as infinity, and every pair of cells, the A* planner returns a
minimum-length sequence of 4-connected moves from inicio to meta whose cells
are all in bounds and transitable; it returns nothing exactly when an
endpoint is out of bounds or non-transitable or no such path exists; and for
a valid inicio = meta it returns the one-element path. -/
theorem a_estrella_correcta (g : Grid) (inicio meta : Celda)
    (hsize : g.ancho * g.alto < GRANDE) :
    (∀ ruta, a_estrella g inicio meta = some ruta →
      EsRuta g ruta ∧ ruta.head? = some inicio ∧ ruta.getLast? = some meta
      ∧ ∀ q, EsRuta g q → q.head? = some inicio → q.getLast? = some meta →
          ruta.length ≤ q.length)
    ∧ (a_estrella g inicio meta = none ↔
        ¬(celdaValida g inicio = true ∧ celdaValida g meta = true
          ∧ ∃ q, EsRuta g q ∧ q.head? = some inicio ∧ q.getLast? = some meta))
    ∧ (inicio = meta → celdaValida g inicio = true →
        a_estrella g inicio meta = some [inicio]) := by
  by_cases hcond : (en_rango g inicio && en_rango g meta
      && es_transitable g inicio && es_transitable g meta) = true
  · have hred : a_estrella g inicio meta
        = (bucleAE g meta (combustible g) (estadoInicialAE g inicio meta)).getD none := by
      unfold a_estrella
      rw [if_pos hcond]
    have hparts := hcond
    simp only [Bool.and_eq_true] at hparts
    obtain ⟨⟨⟨hr1, hr2⟩, ht1⟩, ht2⟩ := hparts
    have hvi : celdaValida g inicio = true := by
      unfold celdaValida
      rw [hr1, ht1]
      rfl
    have hvm : celdaValida g meta = true := by
      unfold celdaValida
      rw [hr2, ht2]
      rfl
    have inv0 := @inv_inicial g inicio meta hvi
    have hμ0 : medida g (estadoInicialAE g inicio meta) < combustible g := by
      unfold medida combustible
      rw [cardCerrados_inicial]
      show 1 + 5 * (g.ancho * g.alto - 0) < 2 + 5 * (g.ancho * g.alto)
      omega
    have hsome := bucle_termina hsize (combustible g) _ inv0 hμ0
    obtain ⟨r, hr⟩ := Option.isSome_iff_exists.mp hsome
    have hbc := bucle_correcto (combustible g) _ hsize inv0 r hr
    have hvalr : a_estrella g inicio meta = r := by
      rw [hred, hr]
      rfl
    have hsome_prop : ∀ ruta, a_estrella g inicio meta = some ruta →
        EsRuta g ruta ∧ ruta.head? = some inicio ∧ ruta.getLast? = some meta
        ∧ ∀ q, EsRuta g q → q.head? = some inicio → q.getLast? = some meta →
            ruta.length ≤ q.length := by
      intro ruta hruta
      rw [hvalr] at hruta
      obtain ⟨h1, h2, h3, h4⟩ := hbc.1 ruta hruta
      refine ⟨h1, h2, h3, ?_⟩
      intro q hq hqh hql
      have halcq := esRuta_alcanza g inicio q hq hqh meta hql
      have hlq : 1 ≤ q.length := List.length_pos.mpr hq.1
      have := h4 _ halcq
      omega
    refine ⟨hsome_prop, ?_, ?_⟩
    · constructor
      · intro hnone
        rw [hvalr] at hnone
        rintro ⟨_, _, q, hq, hqh, hql⟩
        have halcq := esRuta_alcanza g inicio q hq hqh meta hql
        exact hbc.2 hnone _ halcq
      · intro hnr
        cases hcase : a_estrella g inicio meta with
        | none => rfl
        | some ruta =>
          obtain ⟨h1, h2, h3, _⟩ := hsome_prop ruta hcase
          exact absurd ⟨hvi, hvm, ruta, h1, h2, h3⟩ hnr
    · intro heq _
      cases hcase : a_estrella g inicio meta with
      | none =>
        exfalso
        rw [hvalr] at hcase
        have halc0 : Alcanza g inicio 0 meta := by
          rw [← heq]
          exact Alcanza.base hvi
        exact hbc.2 hcase 0 halc0
      | some ruta =>
        obtain ⟨h1, h2, _, h4⟩ := hsome_prop ruta hcase
        have halc0 : Alcanza g inicio 0 meta := by
          rw [← heq]
          exact Alcanza.base hvi
        have hlen1 : ruta.length ≤ 1 := by
          rw [hvalr] at hcase
          have := (hbc.1 ruta hcase).2.2.2 0 halc0
          omega
        cases ruta with
        | nil => exact absurd rfl h1.1
        | cons a t =>
          have hteq : t = [] := by
            simp at hlen1
            exact hlen1
          have haeq : a = inicio := by
            rw [List.head?_cons] at h2
            exact Option.some.inj h2
          rw [hteq, haeq]
  · have hred : a_estrella g inicio meta = none := by
      unfold a_estrella
      rw [if_neg hcond]
    refine ⟨?_, ?_, ?_⟩
    · intro ruta hruta
      rw [hred] at hruta
      cases hruta
    · constructor
      · intro _
        rintro ⟨hvi, hvm, _⟩
        refine hcond ?_
        unfold celdaValida at hvi hvm
        obtain ⟨h1, h3⟩ := (Bool.and_eq_true _ _).mp hvi
        obtain ⟨h2, h4⟩ := (Bool.and_eq_true _ _).mp hvm
        rw [h1, h2, h3, h4]
        rfl
      · intro _
        exact hred
    · intro heq hvi
      exfalso
      refine hcond ?_
      unfold celdaValida at hvi
      obtain ⟨h1, h3⟩ := (Bool.and_eq_true _ _).mp hvi
      rw [h1, h3, ← heq, h1, h3]
      rfl

/-- Witness for C3: on the 5 by 1 corridor the planner maps a cell to
itself by the one-element path. -/
theorem a_estrella_correcta_wit :
    a_estrella gridCorredor (0, 0) (0, 0) = some [(0, 0)] :=
  (a_estrella_correcta gridCorredor (0, 0) (0, 0) (by decide)).2.2 rfl (by decide)

/-! Transitability of occupied cells (robot position invariant). -/

/-- An in-range getD is a member of the list. -/
theorem getD_mem {α : Type} (l : List α) {i : Nat} (h : i < l.length) (d : α) :
    l.getD i d ∈ l := by
  rw [List.getD_eq_getElem?_getD, List.getElem?_eq_getElem h]
  exact List.getElem_mem h

/-- Every cell of a path returned by the planner is in range and
transitable. -/
theorem a_estrella_valida {g : Grid} {a b : Celda} {ruta : List Celda}
    (hsize : g.ancho * g.alto < GRANDE)
    (h : a_estrella g a b = some ruta) :
    ∀ c ∈ ruta, celdaValida g c = true := by
  by_cases hcond : (en_rango g a && en_rango g b
      && es_transitable g a && es_transitable g b) = true
  · have hred : a_estrella g a b
        = (bucleAE g b (combustible g) (estadoInicialAE g a b)).getD none := by
      unfold a_estrella
      rw [if_pos hcond]
    have hparts := hcond
    simp only [Bool.and_eq_true] at hparts
    obtain ⟨⟨⟨hr1, _⟩, ht1⟩, _⟩ := hparts
    have hvi : celdaValida g a = true := by
      unfold celdaValida
      rw [hr1, ht1]
      rfl
    have inv0 := @inv_inicial g a b hvi
    have hμ0 : medida g (estadoInicialAE g a b) < combustible g := by
      unfold medida combustible
      rw [cardCerrados_inicial]
      show 1 + 5 * (g.ancho * g.alto - 0) < 2 + 5 * (g.ancho * g.alto)
      omega
    have hsome := bucle_termina hsize (combustible g) _ inv0 hμ0
    obtain ⟨r, hr⟩ := Option.isSome_iff_exists.mp hsome
    have hbc := bucle_correcto (combustible g) _ hsize inv0 r hr
    rw [hred, hr] at h
    have hrs : r = some ruta := h
    obtain ⟨hruta, _, _, _⟩ := hbc.1 ruta hrs
    exact hruta.2.1
  · unfold a_estrella at h
    rw [if_neg hcond] at h
    cases h

/-- The robot-position invariant: every robot stands on an in-range
transitable cell and every cell of its current route is in range and
transitable. -/
def SimValida (s : SimAlmacen) : Prop :=
  ∀ i, i < s.lista_robots.length →
    celdaValida s.grid (robotEn s i).pos = true
    ∧ ∀ c ∈ (robotEn s i).ruta, celdaValida s.grid c = true

/-- States with the same grid and robot list share the invariant. -/
theorem simValida_igual {s : SimAlmacen} (s2 : SimAlmacen)
    (hv : SimValida s) (hg : s2.grid = s.grid)
    (hl : s2.lista_robots = s.lista_robots) : SimValida s2 := by
  intro j hj
  rw [hl] at hj
  unfold robotEn
  rw [hl, hg]
  exact hv j hj

/-- Replacing one robot by a robot with valid position and route keeps the
invariant. -/
theorem simValida_actualiza {s : SimAlmacen} (s2 : SimAlmacen) (i : Nat)
    (r1 : Robot) (hv : SimValida s) (hg : s2.grid = s.grid)
    (hl : s2.lista_robots = s.lista_robots.set i r1)
    (hpos : i < s.lista_robots.length → celdaValida s.grid r1.pos = true)
    (hruta : i < s.lista_robots.length →
      ∀ c ∈ r1.ruta, celdaValida s.grid c = true) :
    SimValida s2 := by
  intro j hj
  rw [hl, List.length_set] at hj
  unfold robotEn
  rw [hl, hg]
  by_cases hij : i = j
  · rw [← hij] at hj ⊢
    rw [getD_set_self, if_pos hj]
    exact ⟨hpos hj, hruta hj⟩
  · rw [getD_set_ne s.lista_robots hij]
    exact hv j hj

/-- The leg-transition phase keeps the invariant: new routes come from the
planner and the robot position is never moved. -/
theorem planear_valida (s : SimAlmacen) (i : Nat)
    (hsize : s.grid.ancho * s.grid.alto < GRANDE) (hv : SimValida s) :
    SimValida (s.planear i) ∧ (s.planear i).grid = s.grid
    ∧ (s.planear i).lista_robots.length = s.lista_robots.length := by
  by_cases hg : (s.lista_robots.getD i robotDefault).ruta = []
      ∨ (s.lista_robots.getD i robotDefault).idx_ruta
          ≠ (s.lista_robots.getD i robotDefault).ruta.length - 1
  · have he : s.planear i = s := by
      simp only [SimAlmacen.planear, if_pos hg]
    rw [he]
    exact ⟨hv, rfl, rfl⟩
  · have hi : i < s.lista_robots.length := by
      by_contra hile
      have hd : s.lista_robots.getD i robotDefault = robotDefault := by
        rw [List.getD_eq_getElem?_getD,
          List.getElem?_eq_none (Nat.le_of_not_lt hile)]
        rfl
      rw [hd] at hg
      exact hg (Or.inl rfl)
    cases hst : (s.lista_robots.getD i robotDefault).estado with
    | INACTIVO =>
      have he : s.planear i = s := by
        simp only [SimAlmacen.planear, if_neg hg, hst]
      rw [he]
      exact ⟨hv, rfl, rfl⟩
    | A_RECOGER =>
      cases hru : a_estrella s.grid (s.lista_robots.getD i robotDefault).pos
          ((s.lista_robots.getD i robotDefault).estacion_dock.getD (0, 0)) with
      | none =>
        have he : s.planear i = s := by
          simp only [SimAlmacen.planear, if_neg hg, hst, hru]
        rw [he]
        exact ⟨hv, rfl, rfl⟩
      | some ruta =>
        have he : s.planear i = { s with lista_robots := s.lista_robots.set i { s.lista_robots.getD i robotDefault with estado := Estado.A_ESTACION, ruta := ruta, idx_ruta := 0 } } := by
          simp only [SimAlmacen.planear, if_neg hg, hst, hru]
        rw [he]
        refine ⟨simValida_actualiza _ i _ hv rfl rfl ?_ ?_, rfl, List.length_set _ _ _⟩
        · intro _
          exact (hv i hi).1
        · intro _
          exact a_estrella_valida hsize hru
    | A_ESTACION =>
      cases hah : (s.lista_robots.getD i robotDefault).anaquel_home with
      | none =>
        have he : s.planear i = s := by
          simp only [SimAlmacen.planear, if_neg hg, hst, hah]
        rw [he]
        exact ⟨hv, rfl, rfl⟩
      | some anq =>
        cases hpk : elegir_objetivo_adyacente s.grid anq with
        | none =>
          have he : s.planear i = s := by
            simp only [SimAlmacen.planear, if_neg hg, hst, hah, hpk]
          rw [he]
          exact ⟨hv, rfl, rfl⟩
        | some pickup =>
          cases hru : a_estrella s.grid (s.lista_robots.getD i robotDefault).pos pickup with
          | none =>
            have he : s.planear i = s := by
              simp only [SimAlmacen.planear, if_neg hg, hst, hah, hpk, hru]
            rw [he]
            exact ⟨hv, rfl, rfl⟩
          | some ruta =>
            have he : s.planear i = { s with lista_robots := s.lista_robots.set i { s.lista_robots.getD i robotDefault with estado := Estado.RETORNO, ruta := ruta, idx_ruta := 0 } } := by
              simp only [SimAlmacen.planear, if_neg hg, hst, hah, hpk, hru]
            rw [he]
            refine ⟨simValida_actualiza _ i _ hv rfl rfl ?_ ?_, rfl, List.length_set _ _ _⟩
            · intro _
              exact (hv i hi).1
            · intro _
              exact a_estrella_valida hsize hru
    | RETORNO =>
      cases hpid : (s.lista_robots.getD i robotDefault).pedido_id with
      | none =>
        have he : s.planear i = { s with lista_robots := s.lista_robots.set i { s.lista_robots.getD i robotDefault with estado := Estado.INACTIVO, pedido_id := none, anaquel_home := none, estacion_dock := none, ruta := [], idx_ruta := 0 } } := by
          simp only [SimAlmacen.planear, if_neg hg, hst, hpid]
        rw [he]
        refine ⟨simValida_actualiza _ i _ hv rfl rfl ?_ ?_, rfl, List.length_set _ _ _⟩
        · intro _
          exact (hv i hi).1
        · intro _ c hc
          cases hc
      | some pid =>
        have he : s.planear i = { s with pedidos := completarAux s.tick pid s.pedidos, lista_robots := s.lista_robots.set i { s.lista_robots.getD i robotDefault with estado := Estado.INACTIVO, pedido_id := none, anaquel_home := none, estacion_dock := none, ruta := [], idx_ruta := 0 } } := by
          simp only [SimAlmacen.planear, if_neg hg, hst, hpid]
        rw [he]
        refine ⟨simValida_actualiza _ i _ hv rfl rfl ?_ ?_, rfl, List.length_set _ _ _⟩
        · intro _
          exact (hv i hi).1
        · intro _ c hc
          cases hc

/-- The busy-accounting update of the propose loop, named for reuse in
proofs: a robot that is not idle gets ticks_ocupado incremented. -/
def conOcupado (s : SimAlmacen) (i : Nat) : SimAlmacen :=
  if (s.lista_robots.getD i robotDefault).estado ≠ Estado.INACTIVO
  then { s with lista_robots := s.lista_robots.set i { s.lista_robots.getD i robotDefault with ticks_ocupado := (s.lista_robots.getD i robotDefault).ticks_ocupado + 1 } }
  else s

/-- The cell proposed by the propose loop for the robot at position i, named
for reuse in proofs: its own cell when idle, without a route or at the end
of the route, otherwise the next route cell. -/
def propuestaCalculada (s2 : SimAlmacen) (i : Nat) : Celda :=
  if (robotEn s2 i).estado = Estado.INACTIVO ∨ (robotEn s2 i).ruta = []
  then (robotEn s2 i).pos
  else if (robotEn s2 i).idx_ruta < (robotEn s2 i).ruta.length - 1
  then (robotEn s2 i).ruta.getD ((robotEn s2 i).idx_ruta + 1) (0, 0)
  else (robotEn s2 i).pos

/-- Decomposition of the propose loop body through the named pieces. -/
theorem proponerUno_descomp (s : SimAlmacen) (props : Nat → Option Celda)
    (i : Nat) :
    proponerUno (s, props) i
      = ((conOcupado s i).planear i,
         ponPropuesta props (robotEn ((conOcupado s i).planear i) i).robot_id
           (propuestaCalculada ((conOcupado s i).planear i) i)) := rfl

/-- The busy-accounting update keeps the invariant, the grid and the robot
count. -/
theorem conOcupado_valida (s : SimAlmacen) (a : Nat)
    (ha : a < s.lista_robots.length) (hv : SimValida s) :
    SimValida (conOcupado s a) ∧ (conOcupado s a).grid = s.grid
    ∧ (conOcupado s a).lista_robots.length = s.lista_robots.length := by
  unfold conOcupado
  split
  · refine ⟨simValida_actualiza _ a _ hv rfl rfl ?_ ?_, rfl, List.length_set _ _ _⟩
    · intro _
      exact (hv a ha).1
    · intro _
      exact (hv a ha).2
  · exact ⟨hv, rfl, rfl⟩

/-- A computed proposal is a valid cell: the robot's own cell or the next
cell of its valid route. -/
theorem propuestaCalculada_valida (g : Grid) (s2 : SimAlmacen) (i : Nat)
    (hg : s2.grid = g) (hi : i < s2.lista_robots.length) (hv2 : SimValida s2) :
    celdaValida g (propuestaCalculada s2 i) = true := by
  obtain ⟨hpos, hruta⟩ := hv2 i hi
  rw [hg] at hpos hruta
  unfold propuestaCalculada
  split
  · exact hpos
  · split
    · rename_i hA hB
      have hne : (robotEn s2 i).ruta ≠ [] := fun h => hA (Or.inr h)
      have hlen : 1 ≤ (robotEn s2 i).ruta.length := List.length_pos.mpr hne
      exact hruta _ (getD_mem _ (by omega) _)
    · exact hpos

/-- Writing one valid proposal keeps the proposal map valid. -/
theorem ponPropuesta_valida (g : Grid) (props : Nat → Option Celda)
    (rid0 : Nat) (c0 : Celda)
    (hp : ∀ rid c, props rid = some c → celdaValida g c = true)
    (hc0 : celdaValida g c0 = true) :
    ∀ rid c, ponPropuesta props rid0 c0 rid = some c →
      celdaValida g c = true := by
  intro rid c hrc
  unfold ponPropuesta at hrc
  by_cases hr : rid = rid0
  · rw [if_pos hr] at hrc
    rw [(Option.some.inj hrc).symm]
    exact hc0
  · rw [if_neg hr] at hrc
    exact hp rid c hrc

/-- The propose fold preserves the invariant and only writes valid
proposals. -/
theorem proponerFold_valida (g : Grid)
    (hsize : g.ancho * g.alto < GRANDE) :
    ∀ (l : List Nat) (s : SimAlmacen) (props : Nat → Option Celda),
    s.grid = g → SimValida s → (∀ i ∈ l, i < s.lista_robots.length) →
    (∀ rid c, props rid = some c → celdaValida g c = true) →
    SimValida (l.foldl proponerUno (s, props)).1
    ∧ (l.foldl proponerUno (s, props)).1.grid = g
    ∧ (l.foldl proponerUno (s, props)).1.lista_robots.length = s.lista_robots.length
    ∧ (∀ rid c, (l.foldl proponerUno (s, props)).2 rid = some c →
        celdaValida g c = true) := by
  intro l
  induction l with
  | nil =>
    intro s props hgs hv _ hp
    exact ⟨hv, hgs, rfl, hp⟩
  | cons a t ih =>
    intro s props hgs hv hl hp
    have ha := hl a (List.mem_cons_self a t)
    obtain ⟨hvOc, hgOc, hlOc⟩ := conOcupado_valida s a ha hv
    obtain ⟨hv2, hg2, hl2⟩ := planear_valida (conOcupado s a) a
      (by rw [hgOc, hgs]; exact hsize) hvOc
    have hg2g : ((conOcupado s a).planear a).grid = g := by
      rw [hg2, hgOc, hgs]
    have hl2s : ((conOcupado s a).planear a).lista_robots.length
        = s.lista_robots.length := by
      rw [hl2, hlOc]
    have hp2 := ponPropuesta_valida g props
      (robotEn ((conOcupado s a).planear a) a).robot_id
      (propuestaCalculada ((conOcupado s a).planear a) a) hp
      (propuestaCalculada_valida g _ a hg2g (by rw [hl2s]; exact ha) hv2)
    rw [List.foldl_cons, proponerUno_descomp]
    obtain ⟨k1, k2, k3, k4⟩ := ih ((conOcupado s a).planear a) _ hg2g hv2
      (fun i hi => by rw [hl2s]; exact hl i (List.mem_cons_of_mem a hi)) hp2
    exact ⟨k1, k2, by rw [k3, hl2s], k4⟩

/-- The propose phase preserves the invariant and yields a valid proposal
map. -/
theorem proponer_valida (g : Grid) (hsize : g.ancho * g.alto < GRANDE)
    (s : SimAlmacen) (hgs : s.grid = g) (hv : SimValida s) :
    SimValida s.proponer.1 ∧ s.proponer.1.grid = g
    ∧ s.proponer.1.lista_robots.length = s.lista_robots.length
    ∧ (∀ rid c, s.proponer.2 rid = some c → celdaValida g c = true) := by
  unfold SimAlmacen.proponer
  refine proponerFold_valida g hsize _ s _ hgs hv ?_ ?_
  · intro i hi
    exact List.mem_range.mp hi
  · intro rid c h
    cases h

/-- One resolve-loop body keeps the invariant: a robot either stays or
moves onto its proposal, which the proposal map guarantees valid. -/
theorem resolverUno_valida (g : Grid) (props : Nat → Option Celda)
    (hp : ∀ rid c, props rid = some c → celdaValida g c = true)
    (s : SimAlmacen) (mv : Bool) (i : Nat)
    (hg : s.grid = g) (hv : SimValida s) :
    SimValida (resolverUno props (s, mv) i).1
    ∧ (resolverUno props (s, mv) i).1.grid = g
    ∧ (resolverUno props (s, mv) i).1.lista_robots.length
        = s.lista_robots.length := by
  rcases resolverUno_desc props s mv i with ⟨_, he⟩ | ⟨_, _, he⟩ | ⟨_, _, he⟩
  · rw [he]
    exact ⟨simValida_igual _ hv rfl rfl, hg, rfl⟩
  · rw [he]
    refine ⟨simValida_actualiza _ i _ hv rfl rfl ?_ ?_, hg, List.length_set _ _ _⟩
    · intro hi
      show celdaValida s.grid (propuestaDe props s i) = true
      unfold propuestaDe
      cases hpr : props (robotEn s i).robot_id with
      | none => exact (hv i hi).1
      | some c =>
        have hc := hp _ c hpr
        rw [hg]
        exact hc
    · intro hi
      exact (hv i hi).2
  · rw [he]
    refine ⟨simValida_actualiza _ i _ hv rfl rfl ?_ ?_, hg, List.length_set _ _ _⟩
    · intro hi
      exact (hv i hi).1
    · intro hi
      exact (hv i hi).2

/-- The resolve fold keeps the invariant, the grid and the robot count. -/
theorem resolverFold_valida (g : Grid) (props : Nat → Option Celda)
    (hp : ∀ rid c, props rid = some c → celdaValida g c = true) :
    ∀ (l : List Nat) (s : SimAlmacen) (mv : Bool),
    s.grid = g → SimValida s →
    SimValida (l.foldl (resolverUno props) (s, mv)).1
    ∧ (l.foldl (resolverUno props) (s, mv)).1.grid = g
    ∧ (l.foldl (resolverUno props) (s, mv)).1.lista_robots.length
        = s.lista_robots.length := by
  intro l
  induction l with
  | nil =>
    intro s mv hg hv
    exact ⟨hv, hg, rfl⟩
  | cons a t ih =>
    intro s mv hg hv
    obtain ⟨hv1, hg1, hl1⟩ := resolverUno_valida g props hp s mv a hg hv
    rw [List.foldl_cons]
    obtain ⟨k1, k2, k3⟩ := ih (resolverUno props (s, mv) a).1
      (resolverUno props (s, mv) a).2 hg1 hv1
    rw [Prod.mk.eta] at k1 k2 k3
    exact ⟨k1, k2, by rw [k3, hl1]⟩

/-- The release phase keeps the invariant. -/
theorem liberar_valida (s : SimAlmacen) (hv : SimValida s) :
    SimValida s.liberar ∧ s.liberar.grid = s.grid
    ∧ s.liberar.lista_robots.length = s.lista_robots.length :=
  ⟨simValida_igual _ hv rfl rfl, rfl, rfl⟩

/-- One assignment attempt keeps the invariant: the only new route comes
from the planner, and the robot position never changes. -/
theorem asignarRobot_valida (s : SimAlmacen) (i : Nat)
    (hsize : s.grid.ancho * s.grid.alto < GRANDE) (hv : SimValida s) :
    SimValida (asignarRobot s i) ∧ (asignarRobot s i).grid = s.grid
    ∧ (asignarRobot s i).lista_robots.length = s.lista_robots.length := by
  cases hsel : elegirMejor s.grid s.anaquel_home s.pedidos
      (s.lista_robots.getD i robotDefault).pos s.pendientes with
  | none =>
    have h : asignarRobot s i = s := by simp only [asignarRobot, hsel]
    rw [h]
    exact ⟨hv, rfl, rfl⟩
  | some m =>
    cases hpk : elegir_objetivo_adyacente s.grid
        (s.anaquel_home (s.pedidos.getD m pedidoDefault).anaquel_id) with
    | none =>
      have he : asignarRobot s i = { s with
          pedidos := s.pedidos.set m { s.pedidos.getD m pedidoDefault with tick_asignacion := none }
          pendientes := s.pendientes.erase m ++ [m]
          lista_robots := s.lista_robots.set i { s.lista_robots.getD i robotDefault with pedido_id := none, anaquel_home := none, estacion_dock := none, estado := Estado.INACTIVO } } := by
        simp only [asignarRobot, hsel, hpk]
      rw [he]
      refine ⟨simValida_actualiza _ i _ hv rfl rfl ?_ ?_, rfl, List.length_set _ _ _⟩
      · intro hi
        exact (hv i hi).1
      · intro hi
        exact (hv i hi).2
    | some pickup =>
      cases hru : a_estrella s.grid (s.lista_robots.getD i robotDefault).pos pickup with
      | none =>
        have he : asignarRobot s i = { s with
            pedidos := s.pedidos.set m { s.pedidos.getD m pedidoDefault with tick_asignacion := none }
            pendientes := s.pendientes.erase m ++ [m]
            lista_robots := s.lista_robots.set i { s.lista_robots.getD i robotDefault with pedido_id := none, anaquel_home := none, estacion_dock := none, estado := Estado.INACTIVO } } := by
          simp only [asignarRobot, hsel, hpk, hru]
        rw [he]
        refine ⟨simValida_actualiza _ i _ hv rfl rfl ?_ ?_, rfl, List.length_set _ _ _⟩
        · intro hi
          exact (hv i hi).1
        · intro hi
          exact (hv i hi).2
      | some ruta =>
        have he : asignarRobot s i = { s with
            pedidos := s.pedidos.set m { s.pedidos.getD m pedidoDefault with tick_asignacion := some s.tick }
            pendientes := s.pendientes.erase m
            lista_robots := s.lista_robots.set i { s.lista_robots.getD i robotDefault with pedido_id := some (s.pedidos.getD m pedidoDefault).pedido_id, anaquel_home := some (s.anaquel_home (s.pedidos.getD m pedidoDefault).anaquel_id), estacion_dock := some (s.estacion_dock (s.pedidos.getD m pedidoDefault).estacion_id), estado := Estado.A_RECOGER, ruta := ruta, idx_ruta := 0 } } := by
          simp only [asignarRobot, hsel, hpk, hru]
        rw [he]
        refine ⟨simValida_actualiza _ i _ hv rfl rfl ?_ ?_, rfl, List.length_set _ _ _⟩
        · intro hi
          exact (hv i hi).1
        · intro _
          exact a_estrella_valida hsize hru

/-- The assignment loop keeps the invariant. -/
theorem asignarLoop_valida :
    ∀ (l : List Nat) (s : SimAlmacen),
    s.grid.ancho * s.grid.alto < GRANDE → SimValida s →
    SimValida (asignarLoop s l) ∧ (asignarLoop s l).grid = s.grid
    ∧ (asignarLoop s l).lista_robots.length = s.lista_robots.length := by
  intro l
  induction l with
  | nil =>
    intro s _ hv
    exact ⟨hv, rfl, rfl⟩
  | cons a t ih =>
    intro s hsize hv
    by_cases hpe : s.pendientes = []
    · have he : asignarLoop s (a :: t) = s := by
        simp only [asignarLoop, if_pos hpe]
      rw [he]
      exact ⟨hv, rfl, rfl⟩
    · have he : asignarLoop s (a :: t) = asignarLoop (asignarRobot s a) t := by
        simp only [asignarLoop, if_neg hpe]
      rw [he]
      obtain ⟨h1, h2, h3⟩ := asignarRobot_valida s a hsize hv
      obtain ⟨k1, k2, k3⟩ := ih (asignarRobot s a) (by rw [h2]; exact hsize) h1
      exact ⟨k1, by rw [k2, h2], by rw [k3, h3]⟩

/-- The assignment phase keeps the invariant. -/
theorem asignar_valida (s : SimAlmacen)
    (hsize : s.grid.ancho * s.grid.alto < GRANDE) (hv : SimValida s) :
    SimValida s.asignar ∧ s.asignar.grid = s.grid
    ∧ s.asignar.lista_robots.length = s.lista_robots.length := by
  by_cases hcond : (List.range s.lista_robots.length).filter
      (fun i => (s.lista_robots.getD i robotDefault).estado = Estado.INACTIVO) = []
      ∨ s.pendientes = []
  · have he : s.asignar = s := by
      simp only [SimAlmacen.asignar, if_pos hcond]
    rw [he]
    exact ⟨hv, rfl, rfl⟩
  · have he : s.asignar = asignarLoop s ((List.range s.lista_robots.length).filter
        (fun i => (s.lista_robots.getD i robotDefault).estado = Estado.INACTIVO)) := by
      simp only [SimAlmacen.asignar, if_neg hcond]
    rw [he]
    exact asignarLoop_valida _ s hsize hv

/-- The grid of a finished step is the grid of the resolve-fold state. -/
theorem step_grid (s : SimAlmacen) :
    s.step.grid
      = ((s.liberar.asignar.proponer).1.resolver (s.liberar.asignar.proponer).2).1.grid := by
  simp only [SimAlmacen.step]
  split
  · rfl
  · rfl

/-- One full tick keeps the invariant, the grid and the robot count. -/
theorem step_valida (s : SimAlmacen)
    (hsize : s.grid.ancho * s.grid.alto < GRANDE) (hv : SimValida s) :
    SimValida s.step ∧ s.step.grid = s.grid
    ∧ s.step.lista_robots.length = s.lista_robots.length := by
  obtain ⟨hvL, hgL, hlL⟩ := liberar_valida s hv
  obtain ⟨hvA, hgA, hlA⟩ := asignar_valida s.liberar (by rw [hgL]; exact hsize) hvL
  have hgA2 : s.liberar.asignar.grid = s.grid := by rw [hgA, hgL]
  obtain ⟨hvP, hgP, hlP, hpP⟩ := proponer_valida s.grid hsize s.liberar.asignar hgA2 hvA
  have hres : (s.liberar.asignar.proponer).1.resolver (s.liberar.asignar.proponer).2
      = (List.range (s.liberar.asignar.proponer).1.lista_robots.length).foldl
          (resolverUno (s.liberar.asignar.proponer).2)
          ((s.liberar.asignar.proponer).1, false) := rfl
  obtain ⟨hvR, hgR, hlR⟩ := resolverFold_valida s.grid (s.liberar.asignar.proponer).2
    hpP (List.range (s.liberar.asignar.proponer).1.lista_robots.length)
    (s.liberar.asignar.proponer).1 false hgP hvP
  rw [← hres] at hvR hgR hlR
  refine ⟨?_, ?_, ?_⟩
  · exact simValida_igual _ hvR (step_grid s) (step_lista s)
  · rw [step_grid s, hgR]
  · have hll := congrArg List.length (step_lista s)
    rw [hll, hlR, hlP, hlA, hlL]

/-- Fields of a successfully constructed simulator. -/
theorem mkSim_ok_campos {grid : Grid} {dock home : Int → Celda} {nrob : Nat}
    {spawn : List Celda} {pedidos : List Pedido} {seed : Int} {s0 : SimAlmacen}
    (hmk : mkSim grid dock home nrob spawn pedidos seed = Except.ok s0) :
    s0.grid = grid
    ∧ s0.lista_robots = (List.range nrob).map
        (fun i => { robotDefault with robot_id := i, pos := spawn.getD i (0, 0) })
    ∧ nrob ≤ spawn.length := by
  by_cases hlt : spawn.length < nrob
  · rw [mkSim, if_pos hlt] at hmk
    cases hmk
  · simp only [mkSim, if_neg hlt] at hmk
    have hs0 : s0 = _ := (Except.ok.inj hmk).symm
    exact ⟨by rw [hs0], by rw [hs0], Nat.le_of_not_lt hlt⟩

/-- The invariant holds at construction when every spawn cell is valid. -/
theorem mkSim_valida {grid : Grid} {dock home : Int → Celda} {nrob : Nat}
    {spawn : List Celda} {pedidos : List Pedido} {seed : Int} {s0 : SimAlmacen}
    (hmk : mkSim grid dock home nrob spawn pedidos seed = Except.ok s0)
    (hspawn : ∀ c ∈ spawn, celdaValida grid c = true) :
    SimValida s0 := by
  obtain ⟨hg0, hl0, hsp⟩ := mkSim_ok_campos hmk
  intro i hi
  rw [hl0, List.length_map, List.length_range] at hi
  unfold robotEn
  rw [hl0, hg0, getD_map_range _ hi]
  refine ⟨?_, ?_⟩
  · exact hspawn _ (getD_mem spawn (by omega) (0, 0))
  · intro c hc
    cases hc

/-- C4 counterexample: the constructor accepts a robot spawned on a wall
cell, so at tick 0 that robot occupies a non-transitable (though in-range)
cell, refuting the unconditional claim. -/
theorem robot_en_celda_intransitable :
    (mkSim gridMuro (fun _ => (0, 0)) anaquelesMuro 1 [(1, 0)] [] 0).map
      (fun s => (es_transitable s.grid (posEn (s.runN 0) 0),
                 en_rango s.grid (posEn (s.runN 0) 0)))
      = Except.ok (false, true) := rfl

/-- C4 (amended): in a run built from spawn cells that are all in range and
transitable, on a grid below the 10**9 planner sentinel, the cell occupied
by any robot at any tick is transitable and in range: positions only change
by moving onto proposal cells, which are route cells produced by the
planner or the robot's own cell. -/
theorem robots_en_celdas_transitables (grid : Grid) (dock home : Int → Celda)
    (nrob : Nat) (spawn : List Celda) (pedidos : List Pedido) (seed : Int)
    (s0 : SimAlmacen)
    (hmk : mkSim grid dock home nrob spawn pedidos seed = Except.ok s0)
    (hsize : grid.ancho * grid.alto < GRANDE)
    (hspawn : ∀ c ∈ spawn, celdaValida grid c = true) :
    ∀ (t : Nat) (i : Nat), i < (s0.runN t).lista_robots.length →
      es_transitable grid (posEn (s0.runN t) i) = true
      ∧ en_rango grid (posEn (s0.runN t) i) = true := by
  obtain ⟨hg0, _, _⟩ := mkSim_ok_campos hmk
  have hv0 : SimValida s0 := mkSim_valida hmk hspawn
  have hmain : ∀ t, SimValida (s0.runN t) ∧ (s0.runN t).grid = grid := by
    intro t
    induction t with
    | zero => exact ⟨hv0, hg0⟩
    | succ n ihn =>
      obtain ⟨hvn, hgn⟩ := ihn
      obtain ⟨h1, h2, _⟩ := step_valida (s0.runN n) (by rw [hgn]; exact hsize) hvn
      refine ⟨h1, ?_⟩
      show (s0.runN n).step.grid = grid
      rw [h2, hgn]
  intro t i hi
  obtain ⟨hvt, hgt⟩ := hmain t
  have hval := (hvt i hi).1
  rw [hgt] at hval
  unfold celdaValida at hval
  obtain ⟨h1, h2⟩ := (Bool.and_eq_true _ _).mp hval
  exact ⟨h2, h1⟩

/-- A one-robot corridor simulator with no orders, used as a concrete
instance of the amended position invariant. -/
def simCorredorUnico : SimAlmacen :=
  match mkSim gridCorredor (fun _ => (0, 0)) (fun _ => (4, 0)) 1 [(0, 0)] [] 0 with
  | Except.ok s => s
  | Except.error _ =>
    { grid := gridCorredor
      estacion_dock := fun _ => (0, 0)
      anaquel_home := fun _ => (0, 0)
      pedidos := []
      seed := 0
      tick := 0
      tabla_reservas := TablaReservas.vacia
      lista_robots := []
      colisiones_vertice := 0
      intercambios_arista := 0
      conteo_deadlock := 0
      eventos_alto := 0
      pendientes := []
      no_liberados := [] }

/-- Witness for C4: after three ticks of the one-robot corridor run the
robot still stands on a transitable in-range cell. -/
theorem robots_en_celdas_transitables_wit :
    es_transitable gridCorredor (posEn (simCorredorUnico.runN 3) 0) = true
    ∧ en_rango gridCorredor (posEn (simCorredorUnico.runN 3) 0) = true :=
  robots_en_celdas_transitables gridCorredor (fun _ => (0, 0)) (fun _ => (4, 0))
    1 [(0, 0)] [] 0 simCorredorUnico rfl (by decide) (by decide) 3 0 (by decide)

end SimCEDIS
